import Mathlib

/-!
# Verification development for `scripts.js` (portfolio page behaviour)

Shallow embedding of the page script's initialisers and of the handlers they
install.  Each namespace models one initialiser:

* `HeroTilt`     : `initHeroTilt` (`apply`, `onMove`, `reset`), the animation-frame list,
  and the parallax's `update`, which writes the same shapes;
* `Parallax`     : `initParallax` (`request`, `update`, the `ticking` flag);
* `MobileMenu`   : `initMobileMenu` (`toggleMenu` and its listeners);
* `ScrollReveal` : `initScrollReveal` (the intersection-observer callback);
* `ContactForm`  : `initForm` (the submit handler, as a trace of effects);
* `Bubbles`      : `initBubbles` (`createBubblesFor` over a document tree).

Numbers are exact rationals (the idealisation of the script's doubles).  The
first half of the file holds the definitions, the second half the theorems.
-/

namespace HeroTilt

/-- Constant `maxTilt` of `initHeroTilt` (degrees). -/
def maxTilt : ℚ := 7

/-- Constant `maxTranslate` of `initHeroTilt` (px for shapes). -/
def maxTranslate : ℚ := 12

/-- Result of `wrap.getBoundingClientRect()`. -/
structure Rect where
  left : ℚ
  top : ℚ
  width : ℚ
  height : ℚ
  deriving DecidableEq

/-- Value of an element's `style.transform` as the tilt effect writes it:
`neutral` is the empty string, `tilt rx ry` is
`rotateX(rx deg) rotateY(ry deg) translateZ(6px)`, `shift sx sy` is
`translate3d(sx px, sy px, 0)`; `other` is any value the page had before. -/
inductive Transform where
  | neutral : Transform
  | tilt (rotX rotY : ℚ) : Transform
  | shift (sx sy : ℚ) : Transform
  | other : Transform
  deriving DecidableEq

/-- Clamp of `onMove`: `Math.max(-1, Math.min(1, d))`. -/
def clamp (d : ℚ) : ℚ := max (-1) (min 1 d)

/-- Normalised offsets `(nx, ny)` computed by `onMove` from the wrapper
rectangle and the pointer position. -/
def onMoveOffsets (r : Rect) (clientX clientY : ℚ) : ℚ × ℚ :=
  let cx := r.left + r.width / 2
  let cy := r.top + r.height / 2
  let dx := (clientX - cx) / (r.width / 2)
  let dy := (clientY - cy) / (r.height / 2)
  (clamp dx, clamp dy)

/-- Rotation `rotY = x * maxTilt * -1` of `apply`. -/
def rotY (x : ℚ) : ℚ := x * maxTilt * -1

/-- Rotation `rotX = y * maxTilt` of `apply`. -/
def rotX (y : ℚ) : ℚ := y * maxTilt

/-- Translation `transX = x * (maxTranslate * 0.6)` of `apply` (same for `transY`). -/
def trans (x : ℚ) : ℚ := x * (maxTranslate * (6 / 10))

/-- Depth `(i % 3) * 0.45 + 0.6` of the shape with index `i`. -/
def depth (i : Nat) : ℚ := ((i % 3 : Nat) : ℚ) * (45 / 100) + 6 / 10

/-- Offset `sx = transX * depth * -1` of the shape with index `i` (same for `sy`). -/
def shapeOffset (x : ℚ) (i : Nat) : ℚ := trans x * depth i * -1

/-- Transform that `apply(x, y)` writes to the hero image. -/
def applyImage (x y : ℚ) : Transform := Transform.tilt (rotX y) (rotY x)

/-- Transform that `apply(x, y)` writes to the shape with index `i`. -/
def applyShape (x y : ℚ) (i : Nat) : Transform :=
  Transform.shift (shapeOffset x i) (shapeOffset y i)

/-- Closures the script hands to `requestAnimationFrame`: `()=> apply(nx, ny)`
from `onMove`, the resetting closure from `reset`, and `update` from
`initParallax`, whose elements `.geometric-shapes .shape` include the shapes
of the hero wrapper. -/
inductive Callback where
  | applyCb (nx ny : ℚ) : Callback
  | resetCb : Callback
  | updateCb : Callback
  deriving DecidableEq

/-- Whether a closure belongs to the tilt effect. -/
def isTilt : Callback → Bool
  | Callback.applyCb _ _ => true
  | Callback.resetCb => true
  | Callback.updateCb => false

/-- State of the hero section after boot.  Of the tilt: the closure variable
`raf` (`none` is `null`).  Of the browser: the animation-frame callback
identifier `frameId`, the list `frames` of callbacks waiting for the next
frame (handle and closure, in request order) and the handles `ran` of the
callbacks that have been run.  Of the page: the `style.transform` of the hero
image and of each shape of the wrapper, and whether the hero image is itself
one of the parallax's elements.  Of the parallax: whether it is installed
(`parallaxOn`), its flag `ticking` and whether the timer of its debounced
resize listener is armed. -/
structure State where
  raf : Option Nat
  frameId : Nat
  frames : List (Nat × Callback)
  ran : List Nat
  image : Transform
  shapes : List Transform
  imageInElems : Bool
  parallaxOn : Bool
  ticking : Bool
  timer : Bool
  deriving DecidableEq

/-- Browser `requestAnimationFrame(cb)`: the identifier is incremented, the
callback is appended to the list under the new identifier, which is returned
(a handle is therefore never zero). -/
def requestAnimationFrame (cb : Callback) (s : State) : Nat × State :=
  (s.frameId + 1,
   { s with frameId := s.frameId + 1, frames := s.frames ++ [(s.frameId + 1, cb)] })

/-- Browser `cancelAnimationFrame(h)`: the callbacks with handle `h` leave the list. -/
def cancelAnimationFrame (h : Nat) (s : State) : State :=
  { s with frames := s.frames.filter (fun p => p.1 != h) }

/-- Statement `if(raf) cancelAnimationFrame(raf);` (`null` and `0` are falsy). -/
def cancelPending (s : State) : State :=
  match s.raf with
  | some h => if h != 0 then cancelAnimationFrame h s else s
  | none => s

/-- The two statements shared by `onMove` and `reset`:
`if(raf) cancelAnimationFrame(raf); raf = requestAnimationFrame(cb);`. -/
def schedule (cb : Callback) (s : State) : State :=
  let r := requestAnimationFrame cb (cancelPending s)
  { r.2 with raf := some r.1 }

/-- Handler `onMove(e)`, given the wrapper rectangle and the pointer position. -/
def onMove (r : Rect) (clientX clientY : ℚ) (s : State) : State :=
  let n := onMoveOffsets r clientX clientY
  schedule (Callback.applyCb n.1 n.2) s

/-- Handler `reset()`. -/
def reset (s : State) : State := schedule Callback.resetCb s

/-- Function `request` of `initParallax`:
`if(!ticking) ticking = true; requestAnimationFrame(update)`. -/
def parallaxRequest (s : State) : State :=
  if !s.ticking then (requestAnimationFrame Callback.updateCb { s with ticking := true }).2
  else s

/-- The transform `translate3d(tx px, ty px, 0)` that `update` writes to its
element of index `i`; `par` lists the pairs `(tx, ty)` it computes at this
frame from layout, `Math.sin` and the clock. -/
def parallaxTransform (par : List (ℚ × ℚ)) (i : Nat) : Transform :=
  Transform.shift (par.getD i (0, 0)).1 (par.getD i (0, 0)).2

/-- Running one callback of the list at an animation frame: `apply(nx, ny)`
writes the image and every shape (by index); the resetting closure writes
the empty string everywhere; `update` writes a translation to every shape
(and to the image when it is one of its elements) and clears `ticking`. -/
def runCallback (par : List (ℚ × ℚ)) (s : State) (p : Nat × Callback) : State :=
  match p.2 with
  | Callback.applyCb x y =>
      { s with ran := s.ran ++ [p.1], image := applyImage x y,
               shapes := (List.range s.shapes.length).map (applyShape x y) }
  | Callback.resetCb =>
      { s with ran := s.ran ++ [p.1], image := Transform.neutral,
               shapes := s.shapes.map (fun _ => Transform.neutral) }
  | Callback.updateCb =>
      { s with ran := s.ran ++ [p.1], ticking := false,
               image := if s.imageInElems then parallaxTransform par s.shapes.length
                        else s.image,
               shapes := (List.range s.shapes.length).map (parallaxTransform par) }

/-- Events seen by the hero section: the three pointer events the tilt
listens to on the wrapper; a scroll event, a resize event (it re-arms the
120 ms timer of the parallax's `debounce`) and that timer expiring; and the
browser firing an animation frame, at which `update`, if it runs, computes
the translations `par`. -/
inductive Event where
  | pointermove (r : Rect) (clientX clientY : ℚ) : Event
  | pointerleave : Event
  | pointercancel : Event
  | scroll : Event
  | resize : Event
  | timeout : Event
  | frame (par : List (ℚ × ℚ)) : Event
  deriving DecidableEq

/-- One event.  At a frame the browser empties the list and runs its
callbacks in request order. -/
def step (s : State) : Event → State
  | Event.pointermove r x y => onMove r x y s
  | Event.pointerleave => reset s
  | Event.pointercancel => reset s
  | Event.scroll => if s.parallaxOn then parallaxRequest s else s
  | Event.resize => if s.parallaxOn then { s with timer := true } else s
  | Event.timeout =>
      if s.parallaxOn && s.timer then parallaxRequest { s with timer := false } else s
  | Event.frame par => s.frames.foldl (runCallback par) { s with frames := [] }

/-- A sequence of events, oldest first. -/
def run (s : State) (evs : List Event) : State := evs.foldl step s

/-- What the script reads from the page at boot: the reduced-motion
preference, whether `.hero-image-wrapper` and its `.hero-image` exist, the
current animation-frame identifier, the transforms of the image and of the
wrapper's shapes, whether the image matches the parallax's selector, and the
number of elements matching that selector outside the wrapper. -/
structure Page where
  reducedMotion : Bool
  hasWrap : Bool
  hasImage : Bool
  frameId : Nat
  image : Transform
  shapes : List Transform
  imageInElems : Bool
  otherElems : Nat

/-- Function `initHeroTilt`: `none` when it returns before installing the
listeners, else the state it leaves (`raf = null`, nothing requested). -/
def initHeroTilt (p : Page) : Option State :=
  if p.reducedMotion then none
  else if !p.hasWrap || !p.hasImage then none
  else some { raf := none, frameId := p.frameId, frames := [], ran := [],
              image := p.image, shapes := p.shapes, imageInElems := p.imageInElems,
              parallaxOn := false, ticking := false, timer := false }

/-- Function `initParallax`, run by `init` right after `initHeroTilt` (the
reduced-motion preference is then off): it returns when no element matches,
else it installs its listeners and makes the seeding call `request()`. -/
def initParallax (p : Page) (s : State) : State :=
  if p.shapes.length + p.otherElems + (if p.imageInElems then 1 else 0) = 0 then s
  else parallaxRequest { s with parallaxOn := true }

/-- The part of `init` that concerns the hero section: `initHeroTilt()` then
`initParallax()`. -/
def init (p : Page) : Option State := (initHeroTilt p).map (initParallax p)

/-- Invariant of the hero section: the callbacks of the tilt in the list are
those under the handle `raf`; handles in the list are distinct, not zero, not
yet run and not above the identifier, as are `raf` and the handles that ran. -/
structure Inv (s : State) : Prop where
  tiltOne : ∀ p ∈ s.frames, isTilt p.2 = true → s.raf = some p.1
  rafTilt : ∀ p ∈ s.frames, s.raf = some p.1 → isTilt p.2 = true
  nodup : (s.frames.map Prod.fst).Nodup
  bound : ∀ p ∈ s.frames, p.1 ≤ s.frameId ∧ p.1 ∉ s.ran ∧ p.1 ≠ 0
  ranBound : ∀ h ∈ s.ran, h ≤ s.frameId
  rafBound : ∀ h, s.raf = some h → h ≤ s.frameId

/-- Handle `h` has been issued, is not pending and has not run. -/
def Gone (h : Nat) (s : State) : Prop :=
  h ≤ s.frameId ∧ (∀ p ∈ s.frames, p.1 ≠ h) ∧ h ∉ s.ran

/-- Events other than a pointer move and an animation frame. -/
def Quiet : Event → Prop
  | Event.pointermove _ _ _ => False
  | Event.frame _ => False
  | _ => True

/-- Events at which the parallax may request an update: a scroll, and the
expiry of its resize debounce. -/
def Requests : Event → Prop
  | Event.scroll => True
  | Event.timeout => True
  | _ => False

/-- The resetting closure is the last callback of the list, behind callbacks
of the parallax only. -/
def ResetLast (s : State) : Prop :=
  ∃ U h, s.frames = U ++ [(h, Callback.resetCb)] ∧ ∀ p ∈ U, p.2 = Callback.updateCb

/-- The list holds the resetting closure and otherwise callbacks of the parallax only. -/
def ResetPending (s : State) : Prop :=
  (∃ p ∈ s.frames, p.2 = Callback.resetCb) ∧
  ∀ p ∈ s.frames, p.2 = Callback.resetCb ∨ p.2 = Callback.updateCb

/-- A sample hero page: wrapper and image present, one shape, nothing else
matching the parallax's selector. -/
def samplePage : Page :=
  { reducedMotion := false, hasWrap := true, hasImage := true, frameId := 0,
    image := Transform.other, shapes := [Transform.other], imageInElems := false,
    otherElems := 0 }

/-- The state `init` leaves on the sample page: the parallax is installed and
its seeding `update` waits under handle 1. -/
def sampleBoot : State :=
  { raf := none, frameId := 1, frames := [(1, Callback.updateCb)], ran := [],
    image := Transform.other, shapes := [Transform.other], imageInElems := false,
    parallaxOn := true, ticking := true, timer := false }

end HeroTilt

namespace Parallax

/-- State of the scroll parallax: the closure flag `ticking`, the number
`pending` of `update` callbacks waiting in the browser's animation-frame list,
whether the timer of the debounced resize listener is armed, and the number
`updates` of recomputations (runs of `update`) so far.  The transforms that
`update` writes depend on layout, `Math.sin` and the clock and are not
tracked; only the scheduling is. -/
structure State where
  ticking : Bool
  pending : Nat
  timer : Bool
  updates : Nat
  deriving DecidableEq

/-- Function `update`: one recomputation, then `ticking = false`. -/
def update (s : State) : State :=
  { s with updates := s.updates + 1, ticking := false }

/-- Function `request`: `if(!ticking) ticking = true; requestAnimationFrame(update)`. -/
def request (s : State) : State :=
  if !s.ticking then { s with ticking := true, pending := s.pending + 1 } else s

/-- Events seen by the parallax: a scroll event, a resize event (it re-arms the
120 ms timer of `debounce`), that timer expiring, and an animation frame. -/
inductive Event where
  | scroll : Event
  | resize : Event
  | timeout : Event
  | frame : Event
  deriving DecidableEq

/-- One event.  At a frame the browser empties the callback list and runs
every callback that was in it. -/
def step (s : State) : Event → State
  | Event.scroll => request s
  | Event.resize => { s with timer := true }
  | Event.timeout => if s.timer then request { s with timer := false } else s
  | Event.frame => Nat.repeat update s.pending { s with pending := 0 }

/-- A sequence of events, oldest first. -/
def run (s : State) (evs : List Event) : State := evs.foldl step s

/-- Function `initParallax`, given the reduced-motion preference and the
number of matched elements: `none` when it returns early, else the state
after the seeding call `request()`. -/
def initParallax (reducedMotion : Bool) (elems : Nat) : Option State :=
  if reducedMotion then none
  else if elems = 0 then none
  else some (request { ticking := false, pending := 0, timer := false, updates := 0 })

/-- Invariant of the parallax: one callback is pending exactly when `ticking` is set. -/
def Inv (s : State) : Prop := s.pending = if s.ticking then 1 else 0

end Parallax

namespace MobileMenu

/-- State of the mobile menu: the closure flag `isMenuOpen`, the toggle's
`aria-expanded` attribute, whether the class `active` is on the navigation
panel and on the toggle, `document.body.style.overflow`, whether the panel
carries the class `animating`, the number of 300 ms timers not yet expired,
and the ids of the sections scrolled into view so far. -/
structure State where
  isMenuOpen : Bool
  ariaExpanded : String
  navActive : Bool
  hamActive : Bool
  overflow : String
  animating : Bool
  timers : Nat
  scrolled : List String
  deriving DecidableEq

/-- JavaScript `String(b)` for a boolean. -/
def jsString (b : Bool) : String := if b then "true" else "false"

/-- Function `toggleMenu(open)`: `none` is a call without a boolean argument. -/
def toggleMenu (arg : Option Bool) (s : State) : State :=
  let o := match arg with
    | some b => b
    | none => !s.isMenuOpen
  { s with isMenuOpen := o, ariaExpanded := jsString o, navActive := o, hamActive := o,
           overflow := if o then "hidden" else "", animating := true,
           timers := s.timers + 1 }

/-- What the listeners read of a click's target: whether it lies in the
toggle (`hamburger.contains`), in the panel (`navLinks.contains`), whether its
`tagName` is `A`, its `href` attribute (`none` when absent) and whether the
document has an element whose id is the `href` without its first character. -/
structure Target where
  inHamburger : Bool
  inNavLinks : Bool
  isAnchor : Bool
  href : Option String
  anchorFound : Bool
  deriving DecidableEq

/-- Click listener on the toggle: `() => toggleMenu()`. -/
def hamburgerClick (s : State) : State := toggleMenu none s

/-- Click listener on the panel: on a link it closes the menu and scrolls to
the section; `getAttribute('href').substring(1)` throws when there is no
`href`, which ends the listener after the menu has been closed. -/
def navLinksClick (t : Target) (s : State) : State :=
  if t.isAnchor then
    let s1 := toggleMenu (some false) s
    match t.href with
    | none => s1
    | some h => if t.anchorFound then { s1 with scrolled := s1.scrolled ++ [h.drop 1] } else s1
  else s

/-- Click listener on the document: closes an open menu when the target lies
neither in the panel nor in the toggle. -/
def documentClick (t : Target) (s : State) : State :=
  if s.isMenuOpen && !t.inNavLinks && !t.inHamburger then toggleMenu (some false) s else s

/-- Keydown listener on the toggle. -/
def hamburgerKeydown (key : String) (s : State) : State :=
  let s1 := if key = "Enter" ∨ key = " " then toggleMenu none s else s
  if key = "Escape" ∧ s1.isMenuOpen = true then toggleMenu (some false) s1 else s1

/-- Events of the menu: a click (it reaches the listeners of the elements
that contain the target, innermost first, and the document's last; the
toggle is taken not to contain the panel), a keydown on the toggle, and the
expiry of a 300 ms timer. -/
inductive Event where
  | click (t : Target) : Event
  | keydown (key : String) : Event
  | timeout : Event
  deriving DecidableEq

/-- One event. -/
def step (s : State) : Event → State
  | Event.click t =>
      let s1 := if t.inHamburger then hamburgerClick s else s
      let s2 := if t.inNavLinks then navLinksClick t s1 else s1
      documentClick t s2
  | Event.keydown key => hamburgerKeydown key s
  | Event.timeout => if s.timers = 0 then s else { s with animating := false, timers := s.timers - 1 }

/-- A sequence of events, oldest first. -/
def run (s : State) (evs : List Event) : State := evs.foldl step s

/-- What `initMobileMenu` finds in the page: whether `#hamburger` and
`#navLinks` exist, whether each carries the class `active`, the body's inline
`overflow` and whether the panel carries `animating`. -/
structure Page where
  hasHamburger : Bool
  hasNavLinks : Bool
  navActive : Bool
  hamActive : Bool
  overflow : String
  animating : Bool
  deriving DecidableEq

/-- Function `initMobileMenu`: `none` when an element is missing; else it sets
`aria-expanded` to `false` (and three other attributes, not tracked) and
starts with `isMenuOpen = false`; classes and body style are left as found. -/
def initMobileMenu (p : Page) : Option State :=
  if !p.hasHamburger || !p.hasNavLinks then none
  else some { isMenuOpen := false, ariaExpanded := "false", navActive := p.navActive,
              hamActive := p.hamActive, overflow := p.overflow, animating := p.animating,
              timers := 0, scrolled := [] }

/-- Consistency of the menu: `aria-expanded` is the string form of the flag,
`active` is on the panel and on the toggle exactly when the menu is open, and
the body's overflow is `hidden` exactly when the menu is open. -/
def Consistent (s : State) : Prop :=
  s.ariaExpanded = jsString s.isMenuOpen ∧ s.navActive = s.isMenuOpen ∧
  s.hamActive = s.isMenuOpen ∧ (s.overflow = "hidden" ↔ s.isMenuOpen = true)

end MobileMenu

namespace ScrollReveal

/-- An `IntersectionObserverEntry`, as far as the callback reads it: the
target element (elements are named by numbers) and `isIntersecting`. -/
structure Entry where
  target : Nat
  isIntersecting : Bool
  deriving DecidableEq

/-- State of the scroll reveal: the observer's observation targets and the
log `sets` of the calls `setAttribute('data-animate','visible')`, one item a
call (the element it was made on), oldest first. -/
structure State where
  observed : List Nat
  sets : List Nat
  deriving DecidableEq

/-- Body of the callback's `forEach` for one entry: an intersecting entry sets
the attribute on its target and unobserves it. -/
def handleEntry (s : State) (en : Entry) : State :=
  if en.isIntersecting then
    { observed := s.observed.filter (fun n => n != en.target), sets := s.sets ++ [en.target] }
  else s

/-- The observer callback: `entries.forEach(...)`. -/
def callback (s : State) (entries : List Entry) : State := entries.foldl handleEntry s

/-- Browser `io.observe(n)`: the element joins the observation targets unless there already. -/
def observe (o : List Nat) (n : Nat) : List Nat := if n ∈ o then o else o ++ [n]

/-- Function `initScrollReveal`, given the elements matching `[data-animate]`:
`none` when there are none, else every one of them is observed. -/
def initScrollReveal (nodes : List Nat) : Option State :=
  if nodes.length = 0 then none
  else some { observed := nodes.foldl observe [], sets := [] }

/-- A sequence of callback invocations, oldest first. -/
def run (s : State) (batches : List (List Entry)) : State := batches.foldl callback s

/-- The observer's side of the contract: the entries handed to a callback
invocation are for elements that are observed when it is invoked. -/
def Delivered : State → List (List Entry) → Prop
  | _, [] => True
  | s, b :: bs => (∀ en ∈ b, en.target ∈ s.observed) ∧ Delivered (callback s b) bs

/-- Number of intersecting entries for element `e` in one batch of entries. -/
def hits (e : Nat) (b : List Entry) : Nat :=
  (b.filter (fun en => en.isIntersecting && en.target == e)).length

/-- Whether a callback invocation with entries `b` sets the attribute on `e`. -/
def marks (e : Nat) (b : List Entry) : Bool := decide (0 < hits e b)

end ScrollReveal

namespace ContactForm

/-- What a timer callback of the submit handler does to the page. -/
inductive Action where
  | setLabel (text : String) : Action
  | setDisabled (b : Bool) : Action
  | reset : Action
  deriving DecidableEq

/-- Observable effects of one run of the submit handler, in program order:
`e.preventDefault()`, a write to the button (`act`), `emailjs.init(userID)`,
`emailjs.send(serviceID, templateID, templateParams)` with the five template
parameters, `console.warn`, `console.error`, the assignment
`window.location.href = url`, and `setTimeout(body, delay)`. -/
inductive Effect where
  | preventDefault : Effect
  | act (a : Action) : Effect
  | init (userID : String) : Effect
  | send (serviceID templateID fromName fromEmail toEmail subject message : String) : Effect
  | warn : Effect
  | error : Effect
  | assignHref (url : String) : Effect
  | setTimeout (delay : Nat) (body : List Action) : Effect
  deriving DecidableEq

/-- How the promise returned by `emailjs.send` behaves: it resolves, it fails
(the call throws or the promise rejects), or it never settles. -/
inductive SendOutcome where
  | resolves : SendOutcome
  | fails : SendOutcome
  | neverSettles : SendOutcome
  deriving DecidableEq

/-- The relay client `window.emailjs`: whether `typeof emailjs.init` is
`function`, whether calling it throws, and how `send` behaves. -/
structure Client where
  initIsFunction : Bool
  initThrows : Bool
  send : SendOutcome
  deriving DecidableEq

/-- The configuration object `window.__EMAILJS`; a field is `none` when absent. -/
structure Config where
  serviceID : Option String
  templateID : Option String
  userID : Option String
  deriving DecidableEq

/-- Environment of one submission: whether the form has a `button`, the relay
client and the configuration (`none` when the global is absent), the four form
fields as `formData.get` returns them (the empty string also stands for an
absent field), whether assigning `window.location.href` throws, and the
browser's `encodeURIComponent` (total on these strings, which hold no lone
surrogate). -/
structure Env where
  hasButton : Bool
  emailjs : Option Client
  config : Option Config
  name : String
  email : String
  subject : String
  message : String
  navThrows : Bool
  encodeURIComponent : String → String

/-- JavaScript truthiness of a configuration field. -/
def truthy (v : Option String) : Bool :=
  match v with
  | some s => s != ""
  | none => false

/-- JavaScript `v || dflt` on a form field. -/
def orElse (v dflt : String) : String := if v = "" then dflt else v

/-- The object `payload` of the handler: name, email, subject, message. -/
def payload (env : Env) : String × String × String × String :=
  (orElse env.name "Anonymous", orElse env.email "", orElse env.subject "(no subject)",
   orElse env.message "")

/-- Guard of the relay branch: `window.emailjs && window.__EMAILJS &&
window.__EMAILJS.serviceID && window.__EMAILJS.templateID`. -/
def relayGuard (env : Env) : Option (Client × Config) :=
  match env.emailjs, env.config with
  | some c, some cfg =>
      if truthy cfg.serviceID && truthy cfg.templateID then some (c, cfg) else none
  | _, _ => none

/-- How the first `try` block ends: by its `return`, by falling through
because the guard is false, by an exception, or suspended for ever at `await`. -/
inductive TryResult where
  | returned : TryResult
  | skipped : TryResult
  | threw : TryResult
  | suspended : TryResult
  deriving DecidableEq

/-- Body of the timers of the two successful paths. -/
def restoreAndReset : List Action :=
  [Action.setLabel "Transmit", Action.setDisabled false, Action.reset]

/-- Body of the timer of the failing path. -/
def restoreOnly : List Action := [Action.setLabel "Transmit", Action.setDisabled false]

/-- The call `emailjs.init(userID)`, made when `typeof emailjs.init` is
`function` and the user identifier is truthy; an exception it throws is
swallowed by the inner `try`. -/
def initEffects (c : Client) (cfg : Config) : List Effect :=
  if c.initIsFunction && truthy cfg.userID then [Effect.init (cfg.userID.getD "")] else []

/-- The call `emailjs.send(serviceID, templateID, templateParams)`. -/
def sendEffect (env : Env) (cfg : Config) : Effect :=
  Effect.send (cfg.serviceID.getD "") (cfg.templateID.getD "") (payload env).1 (payload env).2.1
    "abubakarsow111@gmail.com" (payload env).2.2.1 (payload env).2.2.2

/-- What follows `await emailjs.send(...)` inside the first `try` block. -/
def afterSend : SendOutcome → List Effect × TryResult
  | SendOutcome.resolves =>
      ([Effect.act (Action.setLabel "Sent ✔"), Effect.setTimeout 1500 restoreAndReset],
       TryResult.returned)
  | SendOutcome.fails => ([], TryResult.threw)
  | SendOutcome.neverSettles => ([], TryResult.suspended)

/-- The first `try` block (the relay). -/
def relayTry (env : Env) : List Effect × TryResult :=
  match relayGuard env with
  | none => ([], TryResult.skipped)
  | some (c, cfg) =>
      (initEffects c cfg ++ sendEffect env cfg :: (afterSend c.send).1, (afterSend c.send).2)

/-- The string `mailto` built by the second `try` block. -/
def mailtoUrl (env : Env) : String :=
  let p := payload env
  let recipient := env.encodeURIComponent "abubakarsow111@gmail.com"
  let subject := env.encodeURIComponent (p.2.2.1 ++ " — via portfolio contact")
  let body := env.encodeURIComponent
    ("Name: " ++ p.1 ++ "\nEmail: " ++ p.2.1 ++ "\n\nMessage:\n" ++ p.2.2.2)
  "mailto:" ++ (recipient ++ "?subject=" ++ subject ++ "&body=" ++ body)

/-- The second `try` block with its `catch` (the mailto fallback). -/
def fallback (env : Env) : List Effect :=
  if env.navThrows then
    [Effect.assignHref (mailtoUrl env), Effect.error, Effect.act (Action.setLabel "Error"),
     Effect.setTimeout 2000 restoreOnly]
  else
    [Effect.assignHref (mailtoUrl env), Effect.act (Action.setLabel "Opened Mail Client"),
     Effect.setTimeout 1500 restoreAndReset]

/-- What the handler does after the first `try` block, by how that block ended. -/
def afterTry (env : Env) : TryResult → List Effect
  | TryResult.returned => []
  | TryResult.suspended => []
  | TryResult.threw => Effect.warn :: fallback env
  | TryResult.skipped => fallback env

/-- The submit listener installed by `initForm`: the effects of one submission. -/
def onSubmit (env : Env) : List Effect :=
  if !env.hasButton then [Effect.preventDefault]
  else
    [Effect.preventDefault, Effect.act (Action.setDisabled true),
     Effect.act (Action.setLabel "Sending…")] ++
    ((relayTry env).1 ++ afterTry env (relayTry env).2)

/-- The three effects every submission with a button starts with. -/
def opening : List Effect :=
  [Effect.preventDefault, Effect.act (Action.setDisabled true),
   Effect.act (Action.setLabel "Sending…")]

/-- Whether the relay branch is entered (its guard holds). -/
def relayConfigured (env : Env) : Bool := (relayGuard env).isSome

/-- Whether an effect schedules a timer. -/
def isTimer : Effect → Bool
  | Effect.setTimeout _ _ => true
  | _ => false

/-- Whether an effect is a call of `emailjs.send`. -/
def isSend : Effect → Bool
  | Effect.send _ _ _ _ _ _ _ => true
  | _ => false

/-- Whether an effect is a call of `emailjs.init`. -/
def isInit : Effect → Bool
  | Effect.init _ => true
  | _ => false

/-- Whether an effect assigns `window.location.href` a URL that starts with `mailto:`. -/
def isMailto : Effect → Prop
  | Effect.assignHref url => ∃ rest, url = "mailto:" ++ rest
  | _ => False

/-- Whether an effect assigns `window.location.href`. -/
def isNavigation : Effect → Bool
  | Effect.assignHref _ => true
  | _ => false

/-- Whether an effect schedules a timer whose body resets the form. -/
def schedulesReset : Effect → Bool
  | Effect.setTimeout _ body => decide (Action.reset ∈ body)
  | _ => false

/-- Whether an effect schedules a timer that sets the label back to
`Transmit` and the disabled flag to false. -/
def schedulesRestore : Effect → Bool
  | Effect.setTimeout _ body =>
      decide (Action.setLabel "Transmit" ∈ body) && decide (Action.setDisabled false ∈ body)
  | _ => false

/-- A relay that is present and fully configured: the client exists and the
configuration holds the three identifiers, none empty. -/
def fullyConfigured (env : Env) : Prop :=
  ∃ c cfg, env.emailjs = some c ∧ env.config = some cfg ∧ truthy cfg.serviceID = true ∧
    truthy cfg.templateID = true ∧ truthy cfg.userID = true

/-- The relay's `send` resolves. -/
def sendSucceeds (env : Env) : Prop := ∃ c, env.emailjs = some c ∧ c.send = SendOutcome.resolves

/-- The relay's `send`, if the relay is there, settles. -/
def sendSettles (env : Env) : Prop := ∀ c, env.emailjs = some c → c.send ≠ SendOutcome.neverSettles

/-- A sample submission: relay client present, the three identifiers set, `send` resolves. -/
def sampleRelay : Env :=
  { hasButton := true, emailjs := some ⟨true, false, SendOutcome.resolves⟩,
    config := some ⟨some "svc", some "tpl", some "uid"⟩,
    name := "Ann", email := "a@b.c", subject := "Hi", message := "Hello",
    navThrows := false, encodeURIComponent := fun s => s }

/-- The sample submission with the user identifier missing from the configuration. -/
def sampleNoUser : Env :=
  { sampleRelay with config := some ⟨some "svc", some "tpl", none⟩ }

/-- The sample submission with the template identifier empty. -/
def sampleNoTemplate : Env :=
  { sampleRelay with config := some ⟨some "svc", some "", some "uid"⟩ }

/-- The sample submission with a failing relay and a throwing navigation. -/
def sampleAllFail : Env :=
  { sampleRelay with emailjs := some ⟨true, false, SendOutcome.fails⟩, navThrows := true }

end ContactForm

namespace Bubbles

/-- The element tree of the page, in first-child / next-sibling form: a
forest is empty or an element (its identity `id`, tag name, class list and
children `kids`) followed by its later siblings `next`.  Document order is
the order element, children, siblings.  Inline styles and attributes are not
tracked. -/
inductive Forest where
  | nil : Forest
  | node (id : Nat) (tag : String) (cls : List String) (kids : Forest) (next : Forest) : Forest
  deriving DecidableEq

/-- The document as the script sees it: the element tree and the identity the
next created element will get (every element of the tree is older). -/
structure Dom where
  root : Forest
  nextId : Nat
  deriving DecidableEq

/-- Constant `variants` of `initBubbles`. -/
def variants : List String := ["bubbles-soft", "bubbles-glass", "bubbles-spot", "bubbles-ghost"]

/-- Whether a tag name matches the selector `header, section, footer`. -/
def isTarget (tag : String) : Bool := tag == "header" || tag == "section" || tag == "footer"

/-- Identities of all elements of a forest, in document order. -/
def ids : Forest → List Nat
  | Forest.nil => []
  | Forest.node x _ _ kids next => x :: (ids kids ++ ids next)

/-- Result of `document.querySelectorAll('header, section, footer')`: the
matching elements in document order. -/
def targetsOf : Forest → List Nat
  | Forest.nil => []
  | Forest.node x tag _ kids next =>
      (if isTarget tag then [x] else []) ++ (targetsOf kids ++ targetsOf next)

/-- Result of `el.querySelector('.bubbles')` on the children of `el`: the first
element in document order whose class list holds `bubbles`, `none` for `null`. -/
def querySelector : Forest → Option Nat
  | Forest.nil => none
  | Forest.node x _ cls kids next =>
      if "bubbles" ∈ cls then some x
      else match querySelector kids with
        | some p => some p
        | none => querySelector next

/-- Effect of `prev.remove()` inside a forest: the element named `p` leaves
with its subtree, its later siblings take its place. -/
def remove (p : Nat) : Forest → Forest
  | Forest.nil => Forest.nil
  | Forest.node x tag cls kids next =>
      if x = p then next else Forest.node x tag cls (remove p kids) (remove p next)

/-- JavaScript `Math.round` on an exact number: the nearest integer, halves upwards. -/
def jsRound (x : ℚ) : ℤ := ⌊x + 1 / 2⌋

/-- The number `count` of `createBubblesFor`, from the rendered height:
`height || 600`, then `Math.min(12, Math.max(3, Math.round(height / 160)))`. -/
def bubbleCount (height : ℚ) : ℤ :=
  min 12 (max 3 (jsRound ((if height = 0 then 600 else height) / 160)))

/-- The `n` elements `div.bubble` the loop of `createBubblesFor` appends to the
fragment, created one after the other from identity `start` on. -/
def mkBubbles : Nat → Nat → Forest
  | 0, _ => Forest.nil
  | n + 1, start => Forest.node start "div" ["bubble"] Forest.nil (mkBubbles n (start + 1))

/-- Effect of `classList.add(c)`. -/
def addClass (c : String) (cls : List String) : List String :=
  if c ∈ cls then cls else cls ++ [c]

/-- What `createBubblesFor` does to the element `el`, given its class list and
children: the first `.bubbles` descendant, if any, is removed; a container
`div` of identity `fresh` with classes `bubbles` and the variant, holding
`count` bubbles, becomes the first child; `has-bubbles` joins the classes. -/
def decorate (fresh count : Nat) (variant : String) (cls : List String) (kids : Forest) :
    List String × Forest :=
  let kids1 := match querySelector kids with
    | some p => remove p kids
    | none => kids
  (addClass "has-bubbles" cls,
   Forest.node fresh "div" ["bubbles", variant] (mkBubbles count (fresh + 1)) kids1)

/-- Applies `f` to the class list and children of the element named `el`:
the first one in document order; `none` when the forest has no such element. -/
def updateElement (el : Nat) (f : List String → Forest → List String × Forest) :
    Forest → Option Forest
  | Forest.nil => none
  | Forest.node x tag cls kids next =>
      if x = el then some (Forest.node x tag (f cls kids).1 (f cls kids).2 next)
      else match updateElement el f kids with
        | some kids1 => some (Forest.node x tag cls kids1 next)
        | none =>
          match updateElement el f next with
          | some next1 => some (Forest.node x tag cls kids next1)
          | none => none

/-- Function `createBubblesFor(el, variantIndex)`; `layout el` is the height
`el.getBoundingClientRect().height` at the time of the call.  An element that
is no longer in the document leaves the document as it is. -/
def createBubblesFor (layout : Nat → ℚ) (el variantIndex : Nat) (d : Dom) : Dom :=
  let count := (bubbleCount (layout el)).toNat
  let variant := variants.getD (variantIndex % variants.length) ""
  match updateElement el (decorate d.nextId count variant) d.root with
  | some r => { root := r, nextId := d.nextId + count + 1 }
  | none => d

/-- The loop `targets.forEach((el, i) => createBubblesFor(el, i))`, from index `i` on. -/
def passFrom (layout : Nat → ℚ) : Nat → List Nat → Dom → Dom
  | _, [], d => d
  | i, el :: rest, d => passFrom layout (i + 1) rest (createBubblesFor layout el i d)

/-- State of the bubble decorator: the array `targets` captured by
`initBubbles` and the document. -/
structure State where
  targets : List Nat
  dom : Dom
  deriving DecidableEq

/-- Function `initBubbles`: `none` under the reduced-motion preference, else
the targets are collected and the initial pass runs over them. -/
def initBubbles (reducedMotion : Bool) (layout : Nat → ℚ) (page : Dom) : Option State :=
  if reducedMotion then none
  else some { targets := targetsOf page.root,
              dom := passFrom layout 0 (targetsOf page.root) page }

/-- The debounced resize listener firing: one more pass over the same
targets, with the heights of that moment. -/
def onResize (s : State) (layout : Nat → ℚ) : State :=
  { s with dom := passFrom layout 0 s.targets s.dom }

/-- The class list and children of the element named `el` (the first in
document order), `none` when the forest has no such element. -/
def find (el : Nat) : Forest → Option (List String × Forest)
  | Forest.nil => none
  | Forest.node x _ cls kids next =>
      if x = el then some (cls, kids)
      else match find el kids with
        | some r => some r
        | none => find el next

/-- The class lists of the elements at the top level of a forest (the
children, when the forest is an element's `kids`). -/
def topClasses : Forest → List (List String)
  | Forest.nil => []
  | Forest.node _ _ cls _ next => cls :: topClasses next

/-- No element at the top level of the forest carries the class `bubbles`. -/
def topNoBubbles : Forest → Bool
  | Forest.nil => true
  | Forest.node _ _ cls _ next => !decide ("bubbles" ∈ cls) && topNoBubbles next

/-- The children `kids` of an element hold exactly one `.bubbles` element,
and it is the first child. -/
def oneContainerFirst : Forest → Bool
  | Forest.nil => false
  | Forest.node _ _ cls _ rest => decide ("bubbles" ∈ cls) && topNoBubbles rest

/-- Every `header`, `section` and `footer` of the forest, at any depth, has
exactly one `.bubbles` child, its first child. -/
def allTargetsDecorated : Forest → Bool
  | Forest.nil => true
  | Forest.node _ tag _ kids next =>
      (!isTarget tag || oneContainerFirst kids) && allTargetsDecorated kids &&
        allTargetsDecorated next

/-- No `header`, `section` or `footer` of the forest holds an element with the
class `bubbles` (at any depth below it). -/
def untouched : Forest → Bool
  | Forest.nil => true
  | Forest.node _ tag _ kids next =>
      (!isTarget tag || (querySelector kids).isNone) && untouched kids && untouched next

/-- The children `kids` of an element start with a `.bubbles` element that is
no target and holds none, and no other child carries `bubbles`. -/
def decorated : Forest → Bool
  | Forest.nil => false
  | Forest.node _ tag cls ck rest =>
      decide ("bubbles" ∈ cls) && !isTarget tag && (targetsOf ck).isEmpty && topNoBubbles rest

/-- The targets that have no container yet, in document order. -/
def pending : Forest → List Nat
  | Forest.nil => []
  | Forest.node x tag _ kids next =>
      (if isTarget tag && !decorated kids then [x] else []) ++ (pending kids ++ pending next)

/-- Invariant of a pass in progress: a target either has its container or
holds no `.bubbles` element at all, and once a target is without container
so is every target after it in document order. -/
def Ok : Forest → Prop
  | Forest.nil => True
  | Forest.node _ tag _ kids next =>
      Ok kids ∧ Ok next ∧
      (isTarget tag = true → decorated kids = true ∨
        (querySelector kids = none ∧ untouched next = true)) ∧
      (pending kids ≠ [] → untouched next = true)

/-- Every target of the forest has its container (in the sense of `decorated`). -/
def Done : Forest → Prop
  | Forest.nil => True
  | Forest.node _ tag _ kids next =>
      (isTarget tag = true → decorated kids = true) ∧ Done kids ∧ Done next

/-- Well-formed document: identities are distinct and older than `nextId`. -/
def WellFormed (d : Dom) : Prop := (ids d.root).Nodup ∧ ∀ y ∈ ids d.root, y < d.nextId

/-- A sample page: a header, a section holding a `div` and a nested section,
and a footer. -/
def samplePage : Dom :=
  { root :=
      Forest.node 1 "header" [] Forest.nil
        (Forest.node 2 "section" ["hero"]
          (Forest.node 3 "div" [] Forest.nil
            (Forest.node 4 "section" [] Forest.nil Forest.nil))
          (Forest.node 5 "footer" [] Forest.nil Forest.nil)),
    nextId := 6 }

end Bubbles

namespace HeroTilt

theorem notTilt_update (cb : Callback) (h : isTilt cb = false) : cb = Callback.updateCb := by
  cases cb <;> simp [isTilt] at h ⊢

theorem tilt_cancel_spec (s : State) (hs : Inv s) :
    cancelPending s = { s with frames := s.frames.filter (fun p => !isTilt p.2) } := by
  obtain ⟨raf, fid, frames, ran, image, shapes, iie, pon, ticking, timer⟩ := s
  have noTilt : (∀ p ∈ frames, isTilt p.2 = false) →
      frames.filter (fun p => !isTilt p.2) = frames := by
    intro h
    apply List.filter_eq_self.mpr
    intro p hp
    simp [h p hp]
  cases raf with
  | none =>
    have h1 : ∀ p ∈ frames, isTilt p.2 = false := by
      intro p hp
      cases ht : isTilt p.2
      · rfl
      · have := hs.tiltOne p hp ht
        simp at this
    simp only [cancelPending, noTilt h1]
  | some h =>
    by_cases h0 : h = 0
    · have h1 : ∀ p ∈ frames, isTilt p.2 = false := by
        intro p hp
        cases ht : isTilt p.2
        · rfl
        · have := hs.tiltOne p hp ht
          simp only [Option.some.injEq] at this
          exact absurd (this.symm.trans h0) (hs.bound p hp).2.2
      simp [cancelPending, h0, noTilt h1]
    · have hne : (h != 0) = true := by simp [h0]
      have key : frames.filter (fun p => p.1 != h) = frames.filter (fun p => !isTilt p.2) := by
        apply List.filter_congr
        intro p hp
        cases ht : isTilt p.2
        · have : p.1 ≠ h := by
            intro e
            have := hs.rafTilt p hp (by simp [e])
            rw [ht] at this
            simp at this
          simp [this]
        · have := hs.tiltOne p hp ht
          simp only [Option.some.injEq] at this
          simp [this]
      simp only [cancelPending, hne, if_true, cancelAnimationFrame, key]

theorem tilt_schedule_spec (cb : Callback) (s : State) (hs : Inv s) :
    schedule cb s =
      { s with raf := some (s.frameId + 1), frameId := s.frameId + 1,
               frames := s.frames.filter (fun p => !isTilt p.2) ++ [(s.frameId + 1, cb)] } := by
  unfold schedule
  rw [tilt_cancel_spec s hs]
  rfl

theorem nodup_snoc (L : List (Nat × Callback)) (n : Nat) (cb : Callback)
    (h1 : (L.map Prod.fst).Nodup) (h2 : ∀ p ∈ L, p.1 ≠ n) :
    ((L ++ [(n, cb)]).map Prod.fst).Nodup := by
  rw [List.map_append, List.nodup_append]
  refine ⟨h1, by simp, ?_⟩
  intro a ha hb
  simp only [List.map_cons, List.map_nil, List.mem_singleton] at hb
  obtain ⟨p, hp, rfl⟩ := List.mem_map.mp ha
  exact h2 p hp hb

theorem tilt_schedule_inv (cb : Callback) (s : State) (hcb : isTilt cb = true) (hs : Inv s) :
    Inv (schedule cb s) := by
  rw [tilt_schedule_spec cb s hs]
  have hU : ∀ p ∈ s.frames.filter (fun p => !isTilt p.2), p ∈ s.frames ∧ isTilt p.2 = false := by
    intro p hp
    have := List.mem_filter.mp hp
    exact ⟨this.1, by simpa using this.2⟩
  refine ⟨?_, ?_, ?_, ?_, ?_, ?_⟩
  · intro p hp ht
    simp only [List.mem_append, List.mem_singleton] at hp
    rcases hp with hp | hp
    · rw [(hU p hp).2] at ht; simp at ht
    · rw [hp]
  · intro p hp hr
    simp only [Option.some.injEq] at hr
    simp only [List.mem_append, List.mem_singleton] at hp
    rcases hp with hp | hp
    · have := (hs.bound p (hU p hp).1).1
      omega
    · rw [hp]; exact hcb
  · apply nodup_snoc
    · exact List.Nodup.sublist (List.Sublist.map _ (List.filter_sublist _)) hs.nodup
    · intro p hp
      have := (hs.bound p (hU p hp).1).1
      omega
  · intro p hp
    simp only [List.mem_append, List.mem_singleton] at hp
    rcases hp with hp | hp
    · obtain ⟨b1, b2, b3⟩ := hs.bound p (hU p hp).1
      exact ⟨Nat.le_succ_of_le b1, b2, b3⟩
    · rw [hp]
      refine ⟨le_refl _, fun hm => ?_, by simp⟩
      have := hs.ranBound _ hm
      simp at this
  · intro h hh
    exact Nat.le_succ_of_le (hs.ranBound h hh)
  · intro h hh
    simp only [Option.some.injEq] at hh
    simp only
    omega

theorem tilt_request_spec (s : State) :
    parallaxRequest s =
      if s.ticking then s
      else { s with ticking := true, frameId := s.frameId + 1,
                    frames := s.frames ++ [(s.frameId + 1, Callback.updateCb)] } := by
  unfold parallaxRequest requestAnimationFrame
  cases s.ticking <;> rfl

theorem tilt_request_inv (s : State) (hs : Inv s) : Inv (parallaxRequest s) := by
  rw [tilt_request_spec]
  split
  · exact hs
  · refine ⟨?_, ?_, ?_, ?_, ?_, ?_⟩
    · intro p hp ht
      simp only [List.mem_append, List.mem_singleton] at hp
      rcases hp with hp | hp
      · exact hs.tiltOne p hp ht
      · rw [hp] at ht; simp [isTilt] at ht
    · intro p hp hr
      simp only [List.mem_append, List.mem_singleton] at hp
      rcases hp with hp | hp
      · exact hs.rafTilt p hp hr
      · rw [hp] at hr
        have := hs.rafBound _ hr
        simp at this
    · apply nodup_snoc _ _ _ hs.nodup
      intro p hp
      have := (hs.bound p hp).1
      omega
    · intro p hp
      simp only [List.mem_append, List.mem_singleton] at hp
      rcases hp with hp | hp
      · obtain ⟨b1, b2, b3⟩ := hs.bound p hp
        exact ⟨Nat.le_succ_of_le b1, b2, b3⟩
      · rw [hp]
        refine ⟨le_refl _, fun hm => ?_, by simp⟩
        have := hs.ranBound _ hm
        simp at this
    · intro h hh
      exact Nat.le_succ_of_le (hs.ranBound h hh)
    · intro h hh
      exact Nat.le_succ_of_le (hs.rafBound h hh)

theorem tilt_timer_inv (s : State) (b : Bool) (hs : Inv s) : Inv { s with timer := b } :=
  ⟨hs.tiltOne, hs.rafTilt, hs.nodup, hs.bound, hs.ranBound, hs.rafBound⟩

theorem tilt_runCallback_spec (par : List (ℚ × ℚ)) (s : State) (p : Nat × Callback) :
    (runCallback par s p).frames = s.frames ∧ (runCallback par s p).frameId = s.frameId ∧
    (runCallback par s p).raf = s.raf ∧ (runCallback par s p).ran = s.ran ++ [p.1] ∧
    (runCallback par s p).imageInElems = s.imageInElems ∧
    (runCallback par s p).parallaxOn = s.parallaxOn := by
  unfold runCallback
  cases p.2 <;> simp

theorem tilt_foldl_spec (par : List (ℚ × ℚ)) (L : List (Nat × Callback)) :
    ∀ s : State, (L.foldl (runCallback par) s).frames = s.frames ∧
      (L.foldl (runCallback par) s).frameId = s.frameId ∧
      (L.foldl (runCallback par) s).raf = s.raf ∧
      (L.foldl (runCallback par) s).ran = s.ran ++ L.map Prod.fst ∧
      (L.foldl (runCallback par) s).imageInElems = s.imageInElems ∧
      (L.foldl (runCallback par) s).parallaxOn = s.parallaxOn := by
  induction L with
  | nil => intro s; simp
  | cons a L ih =>
    intro s
    obtain ⟨h1, h2, h3, h4, h5, h6⟩ := ih (runCallback par s a)
    obtain ⟨r1, r2, r3, r4, r5, r6⟩ := tilt_runCallback_spec par s a
    simp only [List.foldl_cons]
    refine ⟨h1.trans r1, h2.trans r2, h3.trans r3, ?_, h5.trans r5, h6.trans r6⟩
    rw [h4, r4]
    simp

theorem tilt_frame_spec (par : List (ℚ × ℚ)) (s : State) :
    (step s (Event.frame par)).frames = [] ∧ (step s (Event.frame par)).frameId = s.frameId ∧
    (step s (Event.frame par)).raf = s.raf ∧
    (step s (Event.frame par)).ran = s.ran ++ s.frames.map Prod.fst ∧
    (step s (Event.frame par)).imageInElems = s.imageInElems ∧
    (step s (Event.frame par)).parallaxOn = s.parallaxOn := by
  have := tilt_foldl_spec par s.frames { s with frames := [] }
  exact this

theorem tilt_step_inv (s : State) (e : Event) (hs : Inv s) : Inv (step s e) := by
  cases e with
  | pointermove r x y => exact tilt_schedule_inv _ s rfl hs
  | pointerleave => exact tilt_schedule_inv _ s rfl hs
  | pointercancel => exact tilt_schedule_inv _ s rfl hs
  | scroll =>
    simp only [step]
    split
    · exact tilt_request_inv s hs
    · exact hs
  | resize =>
    simp only [step]
    split
    · exact tilt_timer_inv s true hs
    · exact hs
  | timeout =>
    simp only [step]
    split
    · exact tilt_request_inv _ (tilt_timer_inv s false hs)
    · exact hs
  | frame par =>
    obtain ⟨h1, h2, h3, h4, _, _⟩ := tilt_frame_spec par s
    refine ⟨?_, ?_, ?_, ?_, ?_, ?_⟩
    · intro p hp; rw [h1] at hp; simp at hp
    · intro p hp; rw [h1] at hp; simp at hp
    · rw [h1]; simp
    · intro p hp; rw [h1] at hp; simp at hp
    · intro h hh
      rw [h4] at hh
      rw [h2]
      rcases List.mem_append.mp hh with hh | hh
      · exact hs.ranBound h hh
      · obtain ⟨p, hp, rfl⟩ := List.mem_map.mp hh
        exact (hs.bound p hp).1
    · intro h hh
      rw [h3] at hh
      rw [h2]
      exact hs.rafBound h hh

theorem tilt_run_inv (evs : List Event) : ∀ s, Inv s → Inv (run s evs) := by
  induction evs with
  | nil => intro s hs; exact hs
  | cons e es ih => intro s hs; exact ih _ (tilt_step_inv s e hs)

theorem initParallax_inv (p : Page) (t : State) (ht : Inv t) :
    Inv (initParallax p t) ∧ (initParallax p t).imageInElems = t.imageInElems := by
  unfold initParallax
  by_cases hc : p.shapes.length + p.otherElems + (if p.imageInElems then 1 else 0) = 0
  · rw [if_pos hc]
    exact ⟨ht, rfl⟩
  · rw [if_neg hc]
    refine ⟨tilt_request_inv _ ⟨ht.tiltOne, ht.rafTilt, ht.nodup, ht.bound, ht.ranBound,
      ht.rafBound⟩, ?_⟩
    rw [tilt_request_spec]
    split <;> rfl

theorem tilt_init_inv (p : Page) (s : State) (h : init p = some s) :
    Inv s ∧ s.imageInElems = p.imageInElems := by
  unfold init at h
  cases ht : initHeroTilt p with
  | none => rw [ht] at h; simp at h
  | some t =>
    rw [ht] at h
    simp only [Option.map_some', Option.some.injEq] at h
    subst h
    have h1 : Inv t ∧ t.imageInElems = p.imageInElems := by
      unfold initHeroTilt at ht
      split at ht
      · simp at ht
      · split at ht
        · simp at ht
        · simp only [Option.some.injEq] at ht
          subst ht
          exact ⟨⟨by simp, by simp, by simp, by simp, by simp, by simp⟩, rfl⟩
    obtain ⟨i1, i2⟩ := initParallax_inv p t h1.1
    exact ⟨i1, i2.trans h1.2⟩

theorem tilt_step_static (s : State) (e : Event) (hs : Inv s) :
    (step s e).imageInElems = s.imageInElems ∧ (step s e).parallaxOn = s.parallaxOn := by
  have hreq : ∀ t : State, (parallaxRequest t).imageInElems = t.imageInElems ∧
      (parallaxRequest t).parallaxOn = t.parallaxOn := by
    intro t
    rw [tilt_request_spec]
    split <;> exact ⟨rfl, rfl⟩
  have hsch : ∀ cb, (schedule cb s).imageInElems = s.imageInElems ∧
      (schedule cb s).parallaxOn = s.parallaxOn := by
    intro cb
    rw [tilt_schedule_spec cb s hs]
    exact ⟨rfl, rfl⟩
  cases e with
  | pointermove r x y => exact hsch _
  | pointerleave => exact hsch _
  | pointercancel => exact hsch _
  | scroll =>
    simp only [step]
    split
    · exact hreq s
    · exact ⟨rfl, rfl⟩
  | resize =>
    simp only [step]
    split <;> exact ⟨rfl, rfl⟩
  | timeout =>
    simp only [step]
    split
    · exact hreq _
    · exact ⟨rfl, rfl⟩
  | frame par => exact ⟨(tilt_frame_spec par s).2.2.2.2.1, (tilt_frame_spec par s).2.2.2.2.2⟩

theorem tilt_run_static (evs : List Event) :
    ∀ s, Inv s → (run s evs).imageInElems = s.imageInElems := by
  induction evs with
  | nil => intro s _; rfl
  | cons e es ih =>
    intro s hs
    exact (ih _ (tilt_step_inv s e hs)).trans (tilt_step_static s e hs).1

theorem tilt_count (s : State) (hs : Inv s) :
    (s.frames.filter (fun q => isTilt q.2)).length ≤ 1 := by
  have hsub : ((s.frames.filter (fun q => isTilt q.2)).map Prod.fst).Nodup :=
    List.Nodup.sublist (List.Sublist.map _ (List.filter_sublist _)) hs.nodup
  have hall : ∀ q ∈ s.frames.filter (fun q => isTilt q.2), s.raf = some q.1 := by
    intro q hq
    have := List.mem_filter.mp hq
    exact hs.tiltOne q this.1 this.2
  rcases hT : s.frames.filter (fun q => isTilt q.2) with _ | ⟨a, _ | ⟨b, rest⟩⟩
  · simp [hT]
  · simp [hT]
  · exfalso
    simp only [hT] at hsub hall
    have ha := hall a (by simp)
    have hb := hall b (by simp)
    rw [ha] at hb
    simp only [Option.some.injEq] at hb
    simp [hb] at hsub

theorem tilt_step_gone (s : State) (e : Event) (h : Nat) (hs : Inv s) (hg : Gone h s) :
    Gone h (step s e) := by
  obtain ⟨g1, g2, g3⟩ := hg
  have sched : ∀ cb, Gone h (schedule cb s) := by
    intro cb
    rw [tilt_schedule_spec cb s hs]
    refine ⟨Nat.le_succ_of_le g1, ?_, g3⟩
    intro p hp
    simp only [List.mem_append, List.mem_singleton] at hp
    rcases hp with hp | hp
    · exact g2 p (List.mem_filter.mp hp).1
    · rw [hp]
      simp only
      omega
  have req : ∀ t : State, Gone h t → Gone h (parallaxRequest t) := by
    intro t ⟨t1, t2, t3⟩
    rw [tilt_request_spec]
    split
    · exact ⟨t1, t2, t3⟩
    · refine ⟨Nat.le_succ_of_le t1, ?_, t3⟩
      intro p hp
      simp only [List.mem_append, List.mem_singleton] at hp
      rcases hp with hp | hp
      · exact t2 p hp
      · rw [hp]
        simp only
        omega
  cases e with
  | pointermove r x y => exact sched _
  | pointerleave => exact sched _
  | pointercancel => exact sched _
  | scroll =>
    simp only [step]
    split
    · exact req s ⟨g1, g2, g3⟩
    · exact ⟨g1, g2, g3⟩
  | resize =>
    simp only [step]
    split <;> exact ⟨g1, g2, g3⟩
  | timeout =>
    simp only [step]
    split
    · exact req _ ⟨g1, g2, g3⟩
    · exact ⟨g1, g2, g3⟩
  | frame par =>
    obtain ⟨h1, h2, _, h4, _, _⟩ := tilt_frame_spec par s
    refine ⟨by rw [h2]; exact g1, by rw [h1]; simp, ?_⟩
    rw [h4]
    intro hmem
    rcases List.mem_append.mp hmem with hm | hm
    · exact g3 hm
    · obtain ⟨p, hp, hp2⟩ := List.mem_map.mp hm
      exact g2 p hp hp2

theorem tilt_run_gone (evs : List Event) (h : Nat) :
    ∀ s, Inv s → Gone h s → Gone h (run s evs) := by
  induction evs with
  | nil => intro s _ hg; exact hg
  | cons e es ih => intro s hs hg; exact ih _ (tilt_step_inv s e hs) (tilt_step_gone s e h hs hg)

theorem tilt_reset_gone (s : State) (hs : Inv s) (q : Nat × Callback) (hq : q ∈ s.frames)
    (ht : isTilt q.2 = true) :
    Gone q.1 (reset s) ∧ q ∉ (reset s).frames := by
  obtain ⟨b1, b2, _⟩ := hs.bound q hq
  have hraf := hs.tiltOne q hq ht
  unfold reset
  rw [tilt_schedule_spec Callback.resetCb s hs]
  refine ⟨⟨Nat.le_succ_of_le b1, ?_, b2⟩, ?_⟩
  · intro p hp
    simp only [List.mem_append, List.mem_singleton] at hp
    rcases hp with hp | hp
    · obtain ⟨hp1, hp2⟩ := List.mem_filter.mp hp
      intro e
      have := hs.rafTilt p hp1 (by rw [e]; exact hraf)
      rw [this] at hp2
      simp at hp2
    · rw [hp]
      simp only
      omega
  · intro hm
    simp only [List.mem_append, List.mem_singleton] at hm
    rcases hm with hm | hm
    · have := (List.mem_filter.mp hm).2
      rw [ht] at this
      simp at this
    · rw [hm] at b1
      simp at b1

theorem reset_resetLast (s : State) (hs : Inv s) : ResetLast (reset s) := by
  unfold reset
  rw [tilt_schedule_spec Callback.resetCb s hs]
  refine ⟨s.frames.filter (fun p => !isTilt p.2), s.frameId + 1, rfl, ?_⟩
  intro p hp
  apply notTilt_update
  simpa using (List.mem_filter.mp hp).2

theorem resetLast_pending (s : State) (h : ResetLast s) : ResetPending s := by
  obtain ⟨U, n, hf, hU⟩ := h
  unfold ResetPending
  rw [hf]
  refine ⟨⟨(n, Callback.resetCb), by simp, rfl⟩, ?_⟩
  intro p hp
  simp only [List.mem_append, List.mem_singleton] at hp
  rcases hp with hp | hp
  · exact Or.inr (hU p hp)
  · rw [hp]; exact Or.inl rfl

theorem request_resetPending (t : State) (h : ResetPending t) :
    ResetPending (parallaxRequest t) := by
  rw [tilt_request_spec]
  split
  · exact h
  · obtain ⟨⟨q, hq, hq2⟩, hall⟩ := h
    refine ⟨⟨q, List.mem_append_left _ hq, hq2⟩, ?_⟩
    intro p hp
    simp only [List.mem_append, List.mem_singleton] at hp
    rcases hp with hp | hp
    · exact hall p hp
    · rw [hp]; exact Or.inr rfl

theorem quiet_resetPending (s : State) (e : Event) (hq : Quiet e) (hs : Inv s)
    (h : ResetPending s) : ResetPending (step s e) := by
  cases e with
  | pointermove r x y => exact absurd hq (by simp [Quiet])
  | frame par => exact absurd hq (by simp [Quiet])
  | pointerleave => exact resetLast_pending _ (reset_resetLast s hs)
  | pointercancel => exact resetLast_pending _ (reset_resetLast s hs)
  | scroll =>
    simp only [step]
    split
    · exact request_resetPending s h
    · exact h
  | resize =>
    simp only [step]
    split <;> exact h
  | timeout =>
    simp only [step]
    split
    · exact request_resetPending _ h
    · exact h

theorem quiet_run_resetPending (mid : List Event) (hq : ∀ m ∈ mid, Quiet m) :
    ∀ s, Inv s → ResetPending s → ResetPending (run s mid) := by
  induction mid with
  | nil => intro s _ h; exact h
  | cons e es ih =>
    intro s hs h
    exact ih (fun m hm => hq m (List.mem_cons_of_mem _ hm)) _ (tilt_step_inv s e hs)
      (quiet_resetPending s e (hq e (List.mem_cons_self _ _)) hs h)

theorem quiet_resetLast (s : State) (e : Event) (hq : Quiet e) (hs : Inv s)
    (h : ResetLast s) (hc : s.ticking = true ∨ s.parallaxOn = false ∨ ¬ Requests e) :
    ResetLast (step s e) ∧ (s.ticking = true → (step s e).ticking = true) := by
  have hreq : ∀ t : State, t.ticking = true → parallaxRequest t = t := by
    intro t ht
    rw [tilt_request_spec, if_pos ht]
  cases e with
  | pointermove r x y => exact absurd hq (by simp [Quiet])
  | frame par => exact absurd hq (by simp [Quiet])
  | pointerleave =>
    refine ⟨reset_resetLast s hs, fun ht => ?_⟩
    show (schedule Callback.resetCb s).ticking = true
    rw [tilt_schedule_spec _ s hs]; exact ht
  | pointercancel =>
    refine ⟨reset_resetLast s hs, fun ht => ?_⟩
    show (schedule Callback.resetCb s).ticking = true
    rw [tilt_schedule_spec _ s hs]; exact ht
  | resize =>
    simp only [step]
    split
    · exact ⟨h, fun ht => ht⟩
    · exact ⟨h, fun ht => ht⟩
  | scroll =>
    simp only [step]
    rcases hc with hc | hc | hc
    · rw [hreq s hc]
      split <;> exact ⟨h, fun ht => ht⟩
    · simp only [hc, Bool.false_eq_true, if_false]
      exact ⟨h, fun ht => ht⟩
    · exact absurd trivial hc
  | timeout =>
    simp only [step]
    rcases hc with hc | hc | hc
    · split
      · rw [hreq { s with timer := false } hc]
        exact ⟨h, fun ht => ht⟩
      · exact ⟨h, fun ht => ht⟩
    · simp only [hc, Bool.false_and, Bool.false_eq_true, if_false]
      exact ⟨h, fun ht => ht⟩
    · exact absurd trivial hc

theorem quiet_run_resetLast (mid : List Event) (hq : ∀ m ∈ mid, Quiet m) :
    ∀ s, Inv s → ResetLast s →
      (s.ticking = true ∨ s.parallaxOn = false ∨ ∀ m ∈ mid, ¬ Requests m) →
      ResetLast (run s mid) := by
  induction mid with
  | nil => intro s _ h _; exact h
  | cons e es ih =>
    intro s hs h hc
    have hloc : s.ticking = true ∨ s.parallaxOn = false ∨ ¬ Requests e := by
      rcases hc with hc | hc | hc
      · exact Or.inl hc
      · exact Or.inr (Or.inl hc)
      · exact Or.inr (Or.inr (hc e (List.mem_cons_self _ _)))
    obtain ⟨h1, h2⟩ := quiet_resetLast s e (hq e (List.mem_cons_self _ _)) hs h hloc
    apply ih (fun m hm => hq m (List.mem_cons_of_mem _ hm)) _ (tilt_step_inv s e hs) h1
    rcases hc with hc | hc | hc
    · exact Or.inl (h2 hc)
    · exact Or.inr (Or.inl ((tilt_step_static s e hs).2.trans hc))
    · exact Or.inr (Or.inr (fun m hm => hc m (List.mem_cons_of_mem _ hm)))

theorem frame_after_resetLast (par : List (ℚ × ℚ)) (s : State) (h : ResetLast s) :
    (step s (Event.frame par)).image = Transform.neutral ∧
    ∀ t ∈ (step s (Event.frame par)).shapes, t = Transform.neutral := by
  obtain ⟨U, n, hf, _⟩ := h
  simp only [step, hf, List.foldl_append, List.foldl_cons, List.foldl_nil]
  simp [runCallback]

theorem tilt_foldl_image (par : List (ℚ × ℚ)) (L : List (Nat × Callback)) :
    ∀ s : State, (∀ p ∈ L, p.2 = Callback.resetCb ∨ p.2 = Callback.updateCb) →
      s.imageInElems = false →
      ((∃ p ∈ L, p.2 = Callback.resetCb) ∨ s.image = Transform.neutral) →
      (L.foldl (runCallback par) s).image = Transform.neutral := by
  induction L with
  | nil =>
    intro s _ _ h
    rcases h with ⟨p, hp, _⟩ | h
    · simp at hp
    · exact h
  | cons a L ih =>
    intro s hall hflag h
    simp only [List.foldl_cons]
    have hflag2 : (runCallback par s a).imageInElems = false :=
      (tilt_runCallback_spec par s a).2.2.2.2.1.trans hflag
    apply ih _ (fun p hp => hall p (List.mem_cons_of_mem _ hp)) hflag2
    rcases hall a (List.mem_cons_self _ _) with ha | ha
    · right
      simp [runCallback, ha]
    · rcases h with ⟨p, hp, hp2⟩ | h
      · rcases List.mem_cons.mp hp with hp | hp
        · rw [hp, ha] at hp2; simp at hp2
        · exact Or.inl ⟨p, hp, hp2⟩
      · right
        simp [runCallback, ha, hflag, h]

theorem frame_after_resetPending (par : List (ℚ × ℚ)) (s : State) (h : ResetPending s)
    (hflag : s.imageInElems = false) :
    (step s (Event.frame par)).image = Transform.neutral :=
  tilt_foldl_image par s.frames { s with frames := [] } h.2 hflag (Or.inl h.1)

theorem clamp_bounds (d : ℚ) : -1 ≤ clamp d ∧ clamp d ≤ 1 := by
  unfold clamp
  constructor
  · exact le_max_left _ _
  · exact max_le (by norm_num) (min_le_left _ _)

theorem depth_bounds (i : Nat) : 0 ≤ depth i ∧ depth i ≤ 3 / 2 := by
  unfold depth
  have h0 : (0 : ℚ) ≤ ((i % 3 : Nat) : ℚ) := Nat.cast_nonneg _
  have h2 : ((i % 3 : Nat) : ℚ) ≤ 2 := by
    have : i % 3 ≤ 2 := by omega
    exact_mod_cast this
  constructor <;> linarith

theorem shapeOffset_bound (x : ℚ) (i : Nat) (hx : -1 ≤ x ∧ x ≤ 1) :
    |shapeOffset x i| ≤ 54 / 5 := by
  obtain ⟨d0, d1⟩ := depth_bounds i
  have hx1 : |x| ≤ 1 := abs_le.mpr hx
  have e : shapeOffset x i = -(x * (36 / 5) * depth i) := by
    unfold shapeOffset trans maxTranslate; ring
  rw [e, abs_neg, abs_mul, abs_mul, abs_of_nonneg d0]
  have h36 : |(36 / 5 : ℚ)| = 36 / 5 := abs_of_nonneg (by norm_num)
  rw [h36]
  have hxn : 0 ≤ |x| := abs_nonneg x
  nlinarith [mul_le_mul hx1 d1 d0 (by norm_num : (0:ℚ) ≤ 1)]

theorem rot_bound (x : ℚ) (hx : -1 ≤ x ∧ x ≤ 1) :
    |rotX x| ≤ maxTilt ∧ |rotY x| ≤ maxTilt := by
  unfold rotX rotY maxTilt
  constructor
  · rw [abs_le]; constructor <;> linarith [hx.1, hx.2]
  · rw [abs_le]; constructor <;> linarith [hx.1, hx.2]

/-- Counterexample for C7: on the sample page the seeding update runs at the
first frame; then the pointer leaves the wrapper, a scroll event follows (no
pointer move), and the next frame fires.  `update` was requested after the
resetting closure, so it runs after it in that frame and the shape ends with
`translate3d(3px, 4px, 0)`, not with the empty string.  On a page whose hero
image is itself one of the parallax's elements the same events leave that
translation on the image. -/
theorem tilt_shapes_translated_after_leave_scroll_frame :
    init samplePage = some sampleBoot ∧
    Quiet Event.scroll ∧
    (run sampleBoot
      ([Event.frame []] ++ Event.pointerleave :: [Event.scroll] ++ [Event.frame [(3, 4)]])).shapes
      = [Transform.shift 3 4] ∧
    Transform.shift 3 4 ≠ Transform.neutral ∧
    init ⟨false, true, true, 0, Transform.other, [], true, 0⟩
      = some ⟨none, 1, [(1, Callback.updateCb)], [], Transform.other, [], true, true, true,
          false⟩ ∧
    (run ⟨none, 1, [(1, Callback.updateCb)], [], Transform.other, [], true, true, true, false⟩
      ([Event.frame []] ++ Event.pointerleave :: [Event.scroll] ++ [Event.frame [(3, 4)]])).image
      = Transform.shift 3 4 :=
  ⟨rfl, trivial, rfl, by simp, rfl, rfl⟩

/-- Claim C7, amended.  From the state `init` leaves, after any sequence of
pointer, scroll, resize, debounce-expiry and animation-frame events: (1) at
most one animation-frame callback of the tilt effect is pending; (2) a
`pointerleave` or `pointercancel` removes the pending callback of the tilt
from the list, and that callback's handle is never run by any later event;
(3) when a `pointerleave` or `pointercancel` is followed by events without a
pointer move up to the next animation frame, then after that frame the
transform of the hero image is the neutral empty string if the image is not
one of the parallax's elements, and the transforms of the image and of every
shape are neutral if the parallax requests no update in between: an update
was already pending at the leave, or the parallax is not installed, or no
scroll and no debounce expiry occurs in between. -/
theorem tilt_leave_resets_unless_parallax_requests (p : Page) (s0 : State)
    (h0 : init p = some s0) :
    (∀ evs, ((run s0 evs).frames.filter (fun q => isTilt q.2)).length ≤ 1) ∧
    (∀ evs e later, (e = Event.pointerleave ∨ e = Event.pointercancel) →
      ∀ q ∈ (run s0 evs).frames, isTilt q.2 = true →
        q ∉ (step (run s0 evs) e).frames ∧ q.1 ∉ (run (step (run s0 evs) e) later).ran) ∧
    (∀ evs e mid par, (e = Event.pointerleave ∨ e = Event.pointercancel) →
      (∀ m ∈ mid, Quiet m) →
      (p.imageInElems = false →
        (run s0 (evs ++ e :: mid ++ [Event.frame par])).image = Transform.neutral) ∧
      (((run s0 evs).ticking = true ∨ (run s0 evs).parallaxOn = false ∨
          ∀ m ∈ mid, ¬ Requests m) →
        (run s0 (evs ++ e :: mid ++ [Event.frame par])).image = Transform.neutral ∧
        ∀ t ∈ (run s0 (evs ++ e :: mid ++ [Event.frame par])).shapes,
          t = Transform.neutral)) := by
  obtain ⟨i0, hflag0⟩ := tilt_init_inv p s0 h0
  refine ⟨fun evs => tilt_count _ (tilt_run_inv evs s0 i0), ?_, ?_⟩
  · intro evs e later he q hq ht
    have hs := tilt_run_inv evs s0 i0
    have hstep : step (run s0 evs) e = reset (run s0 evs) := by
      rcases he with rfl | rfl <;> rfl
    rw [hstep]
    obtain ⟨g, hn⟩ := tilt_reset_gone _ hs q hq ht
    have hi : Inv (reset (run s0 evs)) := tilt_schedule_inv _ _ rfl hs
    exact ⟨hn, (tilt_run_gone later q.1 _ hi g).2.2⟩
  · intro evs e mid par he hq
    have hs := tilt_run_inv evs s0 i0
    have hstep : step (run s0 evs) e = reset (run s0 evs) := by
      rcases he with rfl | rfl <;> rfl
    have hi : Inv (reset (run s0 evs)) := tilt_schedule_inv _ _ rfl hs
    have hr : ResetLast (reset (run s0 evs)) := reset_resetLast _ hs
    have e1 : run s0 (evs ++ e :: mid ++ [Event.frame par])
        = step (run (reset (run s0 evs)) mid) (Event.frame par) := by
      unfold run at hstep ⊢
      simp only [List.foldl_append, List.foldl_cons, List.foldl_nil]
      rw [hstep]
    rw [e1]
    constructor
    · intro hflag
      have hp := quiet_run_resetPending mid hq _ hi (resetLast_pending _ hr)
      apply frame_after_resetPending par _ hp
      have h1 := tilt_run_static mid _ hi
      have h2 := tilt_run_static [e] _ hs
      have h3 := tilt_run_static evs s0 i0
      have h4 : run (run s0 evs) [e] = reset (run s0 evs) := hstep
      rw [h4] at h2
      rw [h1, h2, h3, hflag0, hflag]
    · intro hc
      have hc2 : (reset (run s0 evs)).ticking = true ∨ (reset (run s0 evs)).parallaxOn = false ∨
          ∀ m ∈ mid, ¬ Requests m := by
        have hsp : reset (run s0 evs) = schedule Callback.resetCb (run s0 evs) := rfl
        rw [hsp, tilt_schedule_spec _ _ hs]
        exact hc
      exact frame_after_resetLast par _ (quiet_run_resetLast mid hq _ hi hr hc2)

/-- Witness for C7: the sample page; the seeding frame, then the pointer
leaves and the next frame fires. -/
theorem tilt_leave_resets_unless_parallax_requests_witness :
    init samplePage = some sampleBoot ∧
    (run sampleBoot ([Event.frame []] ++ Event.pointerleave :: [] ++ [Event.frame []])).image
      = Transform.neutral ∧
    ∀ t ∈ (run sampleBoot
        ([Event.frame []] ++ Event.pointerleave :: [] ++ [Event.frame []])).shapes,
      t = Transform.neutral :=
  ⟨rfl,
   ((tilt_leave_resets_unless_parallax_requests samplePage sampleBoot rfl).2.2
      [Event.frame []] Event.pointerleave [] [] (Or.inl rfl) (by simp)).2
      (Or.inr (Or.inr (by simp)))⟩

/-- Claim C8.  For every pointer position and every wrapper rectangle of
positive width and height, the offsets `nx`, `ny` computed by `onMove` lie in
`[-1, 1]` (they are the clamped exact quotients, the divisors being
non-zero); the rotations `apply` gives the image are at most `maxTilt = 7` in
absolute value, and the translation it gives the shape of any index is at
most `10.8` in absolute value on each axis, which is below `maxTranslate = 12`. -/
theorem tilt_offsets_and_transforms_bounded (r : Rect) (clientX clientY : ℚ)
    (hw : 0 < r.width) (hh : 0 < r.height) :
    (∃ dx dy, dx * (r.width / 2) = clientX - (r.left + r.width / 2) ∧
        dy * (r.height / 2) = clientY - (r.top + r.height / 2) ∧
        onMoveOffsets r clientX clientY = (clamp dx, clamp dy)) ∧
    (-1 ≤ (onMoveOffsets r clientX clientY).1 ∧ (onMoveOffsets r clientX clientY).1 ≤ 1) ∧
    (-1 ≤ (onMoveOffsets r clientX clientY).2 ∧ (onMoveOffsets r clientX clientY).2 ≤ 1) ∧
    (∃ rx ry, applyImage (onMoveOffsets r clientX clientY).1 (onMoveOffsets r clientX clientY).2
        = Transform.tilt rx ry ∧ |rx| ≤ 7 ∧ |ry| ≤ 7 ∧ maxTilt = 7) ∧
    (∀ i : Nat, ∃ sx sy,
      applyShape (onMoveOffsets r clientX clientY).1 (onMoveOffsets r clientX clientY).2 i
        = Transform.shift sx sy ∧ |sx| ≤ 54 / 5 ∧ |sy| ≤ 54 / 5) ∧
    ((54 / 5 : ℚ) < maxTranslate ∧ maxTranslate = 12) := by
  have hx : -1 ≤ (onMoveOffsets r clientX clientY).1 ∧ (onMoveOffsets r clientX clientY).1 ≤ 1 :=
    clamp_bounds _
  have hy : -1 ≤ (onMoveOffsets r clientX clientY).2 ∧ (onMoveOffsets r clientX clientY).2 ≤ 1 :=
    clamp_bounds _
  refine ⟨⟨_, _, ?_, ?_, rfl⟩, hx, hy, ⟨_, _, rfl, ?_, ?_, rfl⟩, ?_, ?_⟩
  · field_simp
  · field_simp
  · simpa [maxTilt] using (rot_bound _ hy).1
  · simpa [maxTilt] using (rot_bound _ hx).2
  · intro i
    exact ⟨_, _, rfl, shapeOffset_bound _ i hx, shapeOffset_bound _ i hy⟩
  · constructor
    · norm_num [maxTranslate]
    · rfl

/-- Witness for C8: a 200 by 100 wrapper at the origin, pointer at (150, 0). -/
theorem tilt_offsets_and_transforms_bounded_witness :
    onMoveOffsets ⟨0, 0, 200, 100⟩ 150 0 = (1 / 2, -1) ∧
    (∀ i : Nat, ∃ sx sy,
      applyShape (onMoveOffsets ⟨0, 0, 200, 100⟩ 150 0).1 (onMoveOffsets ⟨0, 0, 200, 100⟩ 150 0).2 i
        = Transform.shift sx sy ∧ |sx| ≤ 54 / 5 ∧ |sy| ≤ 54 / 5) :=
  ⟨by norm_num [onMoveOffsets, clamp],
   (tilt_offsets_and_transforms_bounded ⟨0, 0, 200, 100⟩ 150 0
      (by norm_num) (by norm_num)).2.2.2.2.1⟩

end HeroTilt

namespace Parallax

theorem request_inv (s : State) (hs : Inv s) : Inv (request s) := by
  unfold Inv at *
  unfold request
  cases ht : s.ticking <;> simp [ht] at hs ⊢
  · exact hs
  · exact hs

theorem parallax_frame_spec (s : State) (hs : Inv s) :
    (step s Event.frame).pending = 0 ∧ (step s Event.frame).ticking = false ∧
    (step s Event.frame).updates = s.updates + (if s.ticking then 1 else 0) ∧
    (step s Event.frame).timer = s.timer := by
  unfold Inv at hs
  cases ht : s.ticking <;> simp [ht] at hs
  · -- an idle frame: nothing is pending; the flag is already clear
    simp [step, hs, Nat.repeat, ht]
  · simp [step, hs, Nat.repeat, update]

theorem parallax_step_inv (s : State) (e : Event) (hs : Inv s) : Inv (step s e) := by
  cases e with
  | scroll => exact request_inv s hs
  | resize => exact hs
  | timeout =>
    simp only [step]
    split
    · exact request_inv _ hs
    · exact hs
  | frame =>
    obtain ⟨h1, h2, _, _⟩ := parallax_frame_spec s hs
    simp [Inv, h1, h2]

theorem parallax_run_inv (evs : List Event) : ∀ s, Inv s → Inv (run s evs) := by
  induction evs with
  | nil => intro s hs; exact hs
  | cons e es ih => intro s hs; exact ih _ (parallax_step_inv s e hs)

theorem parallax_init_inv (r : Bool) (n : Nat) (s : State) (h : initParallax r n = some s) : Inv s := by
  unfold initParallax at h
  split at h
  · simp at h
  · split at h
    · simp at h
    · simp at h
      subst h
      simp [Inv, request]

theorem request_updates (s : State) :
    (request s).updates = s.updates ∧ (s.ticking = true → (request s).ticking = true) ∧
    (request s).ticking = true := by
  unfold request
  cases ht : s.ticking <;> simp [ht]

theorem quiet_step (s : State) (e : Event) (he : e ≠ Event.frame) :
    (step s e).updates = s.updates ∧ (s.ticking = true → (step s e).ticking = true) ∧
    (e = Event.scroll → (step s e).ticking = true) := by
  cases e with
  | scroll => exact ⟨(request_updates s).1, (request_updates s).2.1, fun _ => (request_updates s).2.2⟩
  | resize => exact ⟨rfl, fun h => h, fun h => by simp at h⟩
  | timeout =>
    simp only [step]
    split
    · exact ⟨(request_updates _).1, fun _ => (request_updates _).2.2, fun h => by simp at h⟩
    · exact ⟨rfl, fun h => h, fun h => by simp at h⟩
  | frame => exact absurd rfl he

theorem quiet_run (mid : List Event) (hq : ∀ m ∈ mid, m ≠ Event.frame) :
    ∀ s, (run s mid).updates = s.updates ∧
      ((s.ticking = true ∨ Event.scroll ∈ mid) → (run s mid).ticking = true) := by
  induction mid with
  | nil =>
    intro s
    refine ⟨rfl, fun h => ?_⟩
    rcases h with h | h
    · exact h
    · simp at h
  | cons e es ih =>
    intro s
    obtain ⟨q1, q2, q3⟩ := quiet_step s e (hq e (List.mem_cons_self _ _))
    obtain ⟨i1, i2⟩ := ih (fun m hm => hq m (List.mem_cons_of_mem _ hm)) (step s e)
    refine ⟨by show (run (step s e) es).updates = _; rw [i1, q1], fun h => ?_⟩
    show (run (step s e) es).ticking = true
    rcases h with h | h
    · exact i2 (Or.inl (q2 h))
    · rcases List.mem_cons.mp h with h | h
      · exact i2 (Or.inl (q3 h.symm))
      · exact i2 (Or.inr h)

/-- Claim C10.  From the state `initParallax` leaves, after any sequence of
scroll events, resize events, debounce expiries and animation frames: (1) at
most one `update` callback is pending, and `ticking` is true exactly when one
is; (2) while `ticking` is true `request` changes nothing; (3) an animation
frame runs `update` at most once and leaves the flag clear and nothing
pending; (4) whatever events other than a frame follow a frame, if a scroll
is among them the next frame performs exactly one recomputation. -/
theorem parallax_one_update_per_frame (r : Bool) (n : Nat) (s0 : State)
    (h0 : initParallax r n = some s0) (evs : List Event) :
    ((run s0 evs).pending ≤ 1 ∧ ((run s0 evs).ticking = true ↔ (run s0 evs).pending = 1)) ∧
    ((run s0 evs).ticking = true → request (run s0 evs) = run s0 evs) ∧
    ((step (run s0 evs) Event.frame).updates ≤ (run s0 evs).updates + 1 ∧
      (step (run s0 evs) Event.frame).ticking = false ∧
      (step (run s0 evs) Event.frame).pending = 0) ∧
    (∀ mid, (∀ m ∈ mid, m ≠ Event.frame) → Event.scroll ∈ mid →
      (run (step (run s0 evs) Event.frame) (mid ++ [Event.frame])).updates
        = (step (run s0 evs) Event.frame).updates + 1) := by
  have hs : Inv (run s0 evs) := parallax_run_inv evs s0 (parallax_init_inv r n s0 h0)
  obtain ⟨f1, f2, f3, _⟩ := parallax_frame_spec _ hs
  refine ⟨?_, ?_, ⟨?_, f2, f1⟩, ?_⟩
  · unfold Inv at hs
    cases ht : (run s0 evs).ticking <;> simp [ht] at hs <;> simp [hs]
  · intro ht
    simp [request, ht]
  · rw [f3]; split <;> omega
  · intro mid hq hsc
    have hi : Inv (step (run s0 evs) Event.frame) := parallax_step_inv _ _ hs
    obtain ⟨q1, q2⟩ := quiet_run mid hq (step (run s0 evs) Event.frame)
    have hi2 : Inv (run (step (run s0 evs) Event.frame) mid) := parallax_run_inv mid _ hi
    obtain ⟨_, _, g3, _⟩ := parallax_frame_spec _ hi2
    have e1 : run (step (run s0 evs) Event.frame) (mid ++ [Event.frame])
        = step (run (step (run s0 evs) Event.frame) mid) Event.frame := by
      simp [run, List.foldl_append]
    rw [e1, g3, q2 (Or.inr hsc), q1]
    simp

/-- Witness for C10: three elements, then a frame, three scrolls and a resize
before the next frame: two recomputations in all. -/
theorem parallax_one_update_per_frame_witness :
    initParallax false 3 = some ⟨true, 1, false, 0⟩ ∧
    (run (step (run ⟨true, 1, false, 0⟩ []) Event.frame)
      ([Event.scroll, Event.scroll, Event.resize, Event.scroll] ++ [Event.frame])).updates
      = (step (run ⟨true, 1, false, 0⟩ []) Event.frame).updates + 1 :=
  ⟨rfl,
   (parallax_one_update_per_frame false 3 ⟨true, 1, false, 0⟩ rfl []).2.2.2
     [Event.scroll, Event.scroll, Event.resize, Event.scroll] (by decide) (by decide)⟩

end Parallax

namespace MobileMenu

theorem toggleMenu_consistent (arg : Option Bool) (s : State) :
    Consistent (toggleMenu arg s) := by
  unfold Consistent toggleMenu
  cases arg with
  | none => cases s.isMenuOpen <;> simp
  | some b => cases b <;> simp

theorem toggleMenu_open (arg : Option Bool) (s : State) :
    (toggleMenu arg s).isMenuOpen = (match arg with | some b => b | none => !s.isMenuOpen) := rfl

theorem navLinksClick_consistent (t : Target) (s : State) (hs : Consistent s) :
    Consistent (navLinksClick t s) := by
  unfold navLinksClick
  split
  · have h := toggleMenu_consistent (some false) s
    split
    · exact h
    · split
      · exact h
      · exact h
  · exact hs

theorem documentClick_consistent (t : Target) (s : State) (hs : Consistent s) :
    Consistent (documentClick t s) := by
  unfold documentClick
  split
  · exact toggleMenu_consistent _ _
  · exact hs

theorem keydown_consistent (key : String) (s : State) (hs : Consistent s) :
    Consistent (hamburgerKeydown key s) := by
  have h1 : Consistent (if key = "Enter" ∨ key = " " then toggleMenu none s else s) := by
    split
    · exact toggleMenu_consistent _ _
    · exact hs
  show Consistent (if key = "Escape" ∧
      (if key = "Enter" ∨ key = " " then toggleMenu none s else s).isMenuOpen = true
    then toggleMenu (some false) (if key = "Enter" ∨ key = " " then toggleMenu none s else s)
    else (if key = "Enter" ∨ key = " " then toggleMenu none s else s))
  by_cases hc : key = "Escape" ∧
      (if key = "Enter" ∨ key = " " then toggleMenu none s else s).isMenuOpen = true
  · rw [if_pos hc]
    exact toggleMenu_consistent _ _
  · rw [if_neg hc]
    exact h1

theorem step_consistent (s : State) (e : Event) (hs : Consistent s) : Consistent (step s e) := by
  cases e with
  | click t =>
    simp only [step]
    apply documentClick_consistent
    have h1 : Consistent (if t.inHamburger = true then hamburgerClick s else s) := by
      split
      · exact toggleMenu_consistent _ _
      · exact hs
    split
    · exact navLinksClick_consistent _ _ h1
    · exact h1
  | keydown key => exact keydown_consistent key s hs
  | timeout =>
    simp only [step]
    split
    · exact hs
    · exact hs

theorem run_consistent (evs : List Event) : ∀ s, Consistent s → Consistent (run s evs) := by
  induction evs with
  | nil => intro s hs; exact hs
  | cons e es ih => intro s hs; exact ih _ (step_consistent s e hs)

theorem navLinksClick_anchor_closed (t : Target) (s : State) (ha : t.isAnchor = true) :
    (navLinksClick t s).isMenuOpen = false := by
  unfold navLinksClick
  simp only [ha, if_true]
  split
  · rfl
  · split <;> rfl

theorem documentClick_open (t : Target) (s : State) :
    (documentClick t s).isMenuOpen
      = (s.isMenuOpen && !(s.isMenuOpen && !t.inNavLinks && !t.inHamburger)) := by
  unfold documentClick
  cases h1 : s.isMenuOpen <;> cases h2 : t.inNavLinks <;> cases h3 : t.inHamburger <;>
    simp [h1, toggleMenu]

/-- Counterexample for C9: a page whose navigation panel already carries the
class `active`.  Right after `initMobileMenu`, before any event, the menu is
closed while the panel has `active`, so the state is not consistent.  Two
further inputs, on a page that starts closed: with the menu opened by a click
on the toggle, a click on an element of the panel whose own `tagName` is not
`A` (a `span` nested in a link) leaves the menu open; and a click on a toggle
that is itself an `A` element inside the panel leaves a closed menu closed
(the toggle's listener opens it, the panel's listener closes it again). -/
theorem menu_inconsistent_after_init_on_active_panel :
    initMobileMenu ⟨true, true, true, false, "", false⟩
      = some ⟨false, "false", true, false, "", false, 0, []⟩ ∧
    ¬ Consistent (run ⟨false, "false", true, false, "", false, 0, []⟩ []) ∧
    initMobileMenu ⟨true, true, false, false, "", false⟩
      = some ⟨false, "false", false, false, "", false, 0, []⟩ ∧
    (run ⟨false, "false", false, false, "", false, 0, []⟩
      [Event.click ⟨true, false, false, none, false⟩,
       Event.click ⟨false, true, false, none, false⟩]).isMenuOpen = true ∧
    (run ⟨false, "false", false, false, "", false, 0, []⟩
      [Event.click ⟨true, true, true, some "#", false⟩]).isMenuOpen = false := by
  refine ⟨rfl, ?_, rfl, rfl, rfl⟩
  intro h
  have := h.2.1
  simp [run] at this

/-- Claim C9, amended.  On a page whose toggle does not contain the panel
and that starts with the class `active` on neither the panel nor the toggle
and the body's overflow not `hidden`, after `initMobileMenu` and after every
sequence of events (clicks, keydowns on the toggle, timer expiries) the state
is consistent: `aria-expanded` is the string form of the open flag, `active`
is on the panel and on the toggle exactly when the menu is open, the body's
overflow is `hidden` exactly when it is open.  From any such state a click
whose target lies in the toggle and is not an `A` element inside the panel,
and an Enter or Space keydown, flip the open flag, while an Escape keydown,
a click whose target lies outside panel and toggle, and a click whose target
is itself an `A` element inside the panel each leave the menu closed.
Nothing is stated about a click on an element nested inside a link of the
panel. -/
theorem menu_consistent_from_closed_page (p : Page) (s0 : State)
    (h0 : initMobileMenu p = some s0)
    (hnav : p.navActive = false) (hham : p.hamActive = false) (hov : p.overflow ≠ "hidden")
    (evs : List Event) :
    Consistent (run s0 evs) ∧
    (∀ t : Target, t.inHamburger = true → ¬ (t.inNavLinks = true ∧ t.isAnchor = true) →
      (step (run s0 evs) (Event.click t)).isMenuOpen = !(run s0 evs).isMenuOpen) ∧
    (∀ key, key = "Enter" ∨ key = " " →
      (step (run s0 evs) (Event.keydown key)).isMenuOpen = !(run s0 evs).isMenuOpen) ∧
    (step (run s0 evs) (Event.keydown "Escape")).isMenuOpen = false ∧
    (∀ t : Target, t.inHamburger = false → t.inNavLinks = false →
      (step (run s0 evs) (Event.click t)).isMenuOpen = false) ∧
    (∀ t : Target, t.inNavLinks = true → t.isAnchor = true →
      (step (run s0 evs) (Event.click t)).isMenuOpen = false) := by
  have c0 : Consistent s0 := by
    unfold initMobileMenu at h0
    split at h0
    · simp at h0
    · simp at h0
      subst h0
      simp [Consistent, jsString, hnav, hham, hov]
  refine ⟨run_consistent evs s0 c0, ?_, ?_, ?_, ?_, ?_⟩
  · intro t h1 h2
    simp only [step, h1, if_true]
    rw [documentClick_open]
    cases hn : t.inNavLinks
    · simp [hamburgerClick, toggleMenu, h1]
    · have ha : t.isAnchor = false := by
        cases hb : t.isAnchor
        · rfl
        · exact absurd ⟨hn, hb⟩ h2
      simp [navLinksClick, ha, hamburgerClick, toggleMenu, h1]
  · intro key hk
    have hne : key ≠ "Escape" := by
      rcases hk with rfl | rfl <;> decide
    simp [step, hamburgerKeydown, hk, hne, toggleMenu]
  · have h1 : ¬ ("Escape" = "Enter" ∨ "Escape" = " ") := by decide
    simp only [step, hamburgerKeydown, h1, if_false, true_and]
    split
    · rfl
    · rename_i h
      simpa using h
  · intro t h1 h2
    simp only [step, h1, h2]
    rw [documentClick_open]
    simp [h1, h2]
  · intro t h1 h2
    simp only [step, h1, if_true]
    rw [documentClick_open, navLinksClick_anchor_closed _ _ h2]
    rfl

/-- Witness for C9: a page with both elements and no `active` class; the
toggle is clicked, then a link of the panel. -/
theorem menu_consistent_from_closed_page_witness :
    initMobileMenu ⟨true, true, false, false, "", false⟩
      = some ⟨false, "false", false, false, "", false, 0, []⟩ ∧
    Consistent (run ⟨false, "false", false, false, "", false, 0, []⟩
      [Event.click ⟨true, false, false, none, false⟩,
       Event.click ⟨false, true, true, some "#about", true⟩]) :=
  ⟨rfl,
   (menu_consistent_from_closed_page ⟨true, true, false, false, "", false⟩
      ⟨false, "false", false, false, "", false, 0, []⟩ rfl rfl rfl (by decide)
      [Event.click ⟨true, false, false, none, false⟩,
       Event.click ⟨false, true, true, some "#about", true⟩]).1⟩

end MobileMenu

namespace ScrollReveal

theorem handleEntry_observed (s : State) (en : Entry) (e : Nat) :
    e ∈ (handleEntry s en).observed → e ∈ s.observed := by
  unfold handleEntry
  split
  · intro h
    exact (List.mem_filter.mp h).1
  · exact id

theorem handleEntry_count (s : State) (en : Entry) (e : Nat) :
    (handleEntry s en).sets.count e = s.sets.count e + hits e [en] := by
  unfold handleEntry hits
  cases hi : en.isIntersecting
  · simp [hi]
  · by_cases ht : en.target = e
    · simp [hi, ht, List.count_append]
    · have ht2 : ¬ (e = en.target) := fun h => ht h.symm
      simp [hi, ht, List.count_append, List.count_singleton, ht2]

theorem handleEntry_hit (s : State) (en : Entry) (h : en.isIntersecting = true) :
    en.target ∈ (handleEntry s en).sets ∧ en.target ∉ (handleEntry s en).observed := by
  unfold handleEntry
  simp [h]

theorem handleEntry_gone (s : State) (en : Entry) (e : Nat) (h : 0 < hits e [en]) :
    e ∉ (handleEntry s en).observed := by
  unfold hits at h
  by_cases hc : (en.isIntersecting && en.target == e) = true
  · simp only [Bool.and_eq_true, beq_iff_eq] at hc
    obtain ⟨hi, rfl⟩ := hc
    exact (handleEntry_hit s en hi).2
  · simp [List.filter, hc] at h

theorem hits_cons (e : Nat) (en : Entry) (b : List Entry) :
    hits e (en :: b) = hits e [en] + hits e b := by
  unfold hits
  by_cases hc : (en.isIntersecting && en.target == e) = true
  · simp [List.filter, hc]; omega
  · simp [List.filter, hc]

theorem callback_observed (b : List Entry) (e : Nat) :
    ∀ s, e ∈ (callback s b).observed → e ∈ s.observed := by
  induction b with
  | nil => intro s h; exact h
  | cons en es ih => intro s h; exact handleEntry_observed s en e (ih _ h)

theorem callback_count (b : List Entry) (e : Nat) :
    ∀ s, (callback s b).sets.count e = s.sets.count e + hits e b := by
  induction b with
  | nil => intro s; simp [callback, hits]
  | cons en es ih =>
    intro s
    show (callback (handleEntry s en) es).sets.count e = _
    rw [hits_cons e en es, ih, handleEntry_count]
    omega

theorem callback_gone (b : List Entry) (e : Nat) :
    ∀ s, 0 < hits e b → e ∉ (callback s b).observed := by
  induction b with
  | nil => intro s h; simp [hits] at h
  | cons en es ih =>
    intro s h
    rw [hits_cons e en es] at h
    show e ∉ (callback (handleEntry s en) es).observed
    by_cases h1 : 0 < hits e es
    · exact ih _ h1
    · have h2 : 0 < hits e [en] := by omega
      exact fun hm => handleEntry_gone s en e h2 (callback_observed es e _ hm)

theorem hits_pos_mem (b : List Entry) (e : Nat) (h : 0 < hits e b) :
    ∃ en ∈ b, en.target = e := by
  unfold hits at h
  obtain ⟨en, hen⟩ := List.exists_mem_of_length_pos h
  obtain ⟨h1, h2⟩ := List.mem_filter.mp hen
  simp only [Bool.and_eq_true, beq_iff_eq] at h2
  exact ⟨en, h1, h2.2⟩

theorem run_observed (bs : List (List Entry)) (e : Nat) :
    ∀ s, e ∈ (run s bs).observed → e ∈ s.observed := by
  induction bs with
  | nil => intro s h; exact h
  | cons b bs ih => intro s h; exact callback_observed b e s (ih _ h)

theorem run_disjoint (bs : List (List Entry)) (e : Nat) :
    ∀ s, (e ∈ s.sets → e ∉ s.observed) → e ∈ (run s bs).sets → e ∉ (run s bs).observed := by
  induction bs with
  | nil => intro s h; exact h
  | cons b bs ih =>
    intro s h
    apply ih (callback s b)
    intro hm hobs
    have hc := callback_count b e s
    by_cases hp : 0 < hits e b
    · exact callback_gone b e s hp hobs
    · have h0 : hits e b = 0 := by omega
      rw [h0, Nat.add_zero] at hc
      have h1 : e ∈ s.sets := by
        have := List.count_pos_iff.mpr hm
        rw [hc] at this
        exact List.count_pos_iff.mp this
      exact h h1 (callback_observed b e s hobs)

theorem run_marks_le (bs : List (List Entry)) (e : Nat) :
    ∀ s, Delivered s bs →
      (bs.filter (marks e)).length ≤ (if e ∈ s.observed then 1 else 0) := by
  induction bs with
  | nil => intro s _; simp
  | cons b bs ih =>
    intro s hd
    obtain ⟨hb, hrest⟩ := hd
    have hi := ih (callback s b) hrest
    by_cases hp : 0 < hits e b
    · obtain ⟨en, hen, rfl⟩ := hits_pos_mem b e hp
      have hobs := hb en hen
      have hg := callback_gone b en.target s hp
      simp only [hg, if_false] at hi
      have hm : marks en.target b = true := by simp [marks, hp]
      simp only [List.filter_cons, hm, if_true, List.length_cons, hobs]
      omega
    · have hm : marks e b = false := by simp [marks]; omega
      simp only [List.filter_cons, hm]
      by_cases ho : e ∈ (callback s b).observed
      · have := callback_observed b e s ho
        simp only [ho, if_true] at hi
        simp [this]
        exact hi
      · simp only [ho, if_false] at hi
        have : (List.filter (marks e) bs).length = 0 := by omega
        simp [this]

theorem run_count_le (bs : List (List Entry)) (e : Nat) :
    ∀ s, Delivered s bs → (∀ b ∈ bs, hits e b ≤ 1) →
      (run s bs).sets.count e ≤ s.sets.count e + (if e ∈ s.observed then 1 else 0) := by
  induction bs with
  | nil => intro s _ _; simp [run]
  | cons b bs ih =>
    intro s hd h1
    obtain ⟨hb, hrest⟩ := hd
    have hi := ih (callback s b) hrest (fun b2 hb2 => h1 b2 (List.mem_cons_of_mem _ hb2))
    have hc := callback_count b e s
    have hle := h1 b (List.mem_cons_self _ _)
    have hrun : run s (b :: bs) = run (callback s b) bs := rfl
    rw [hrun]
    by_cases hp : 0 < hits e b
    · have hobs : e ∈ s.observed := by
        obtain ⟨en, hen, he⟩ := hits_pos_mem b e hp
        rw [← he]
        exact hb en hen
      have hg := callback_gone b e s hp
      simp only [hg, if_false] at hi
      simp only [hobs, if_true]
      omega
    · have h0 : hits e b = 0 := by omega
      by_cases ho : e ∈ (callback s b).observed
      · have := callback_observed b e s ho
        simp only [ho, if_true] at hi
        simp only [this, if_true]
        omega
      · simp only [ho, if_false] at hi
        split <;> omega

theorem init_sets (nodes : List Nat) (s0 : State) (h : initScrollReveal nodes = some s0) :
    s0.sets = [] := by
  unfold initScrollReveal at h
  split at h
  · simp at h
  · simp at h
    subst h
    rfl

/-- Counterexample for C3: one observed element, and one callback invocation
whose entries hold two intersecting records for it (the observer queues a
record at every threshold crossing and hands over all queued records at
once).  The attribute is set twice. -/
theorem reveal_sets_twice_on_repeated_entry :
    initScrollReveal [1] = some ⟨[1], []⟩ ∧
    Delivered ⟨[1], []⟩ [[⟨1, true⟩, ⟨1, true⟩]] ∧
    (run ⟨[1], []⟩ [[⟨1, true⟩, ⟨1, true⟩]]).sets.count 1 = 2 := by
  refine ⟨rfl, ?_, rfl⟩
  simp [Delivered]

/-- Claim C3, amended.  For every sequence of callback invocations whose
entries are for elements observed when the callback is invoked: each element
has its attribute set by at most one invocation of the sequence, and at most
once in all when no invocation carries two intersecting entries for it; an
intersecting entry marks its target visible and removes it from the observed
set; no step ever puts an element back into the observed set, so an element
that has been marked visible is not observed afterwards. -/
theorem reveal_marks_in_one_callback (nodes : List Nat) (s0 : State)
    (h0 : initScrollReveal nodes = some s0) (batches : List (List Entry))
    (hd : Delivered s0 batches) (e : Nat) :
    (batches.filter (marks e)).length ≤ 1 ∧
    ((∀ b ∈ batches, hits e b ≤ 1) → (run s0 batches).sets.count e ≤ 1) ∧
    (∀ s en, en.isIntersecting = true →
      en.target ∈ (handleEntry s en).sets ∧ en.target ∉ (handleEntry s en).observed) ∧
    (∀ more, e ∈ (run (run s0 batches) more).observed → e ∈ (run s0 batches).observed) ∧
    (e ∈ (run s0 batches).observed → e ∈ s0.observed) ∧
    (∀ more, e ∈ (run s0 batches).sets → e ∉ (run (run s0 batches) more).observed) := by
  have hs := init_sets nodes s0 h0
  have hdis : e ∈ (run s0 batches).sets → e ∉ (run s0 batches).observed :=
    run_disjoint batches e s0 (by rw [hs]; simp)
  refine ⟨?_, ?_, handleEntry_hit, fun more => run_observed more e _,
    run_observed batches e s0, ?_⟩
  · have := run_marks_le batches e s0 hd
    split at this <;> omega
  · intro h1
    have := run_count_le batches e s0 hd h1
    rw [hs] at this
    simp only [List.count_nil, Nat.zero_add] at this
    split at this <;> omega
  · intro more hm ho
    exact hdis hm (run_observed more e _ ho)

/-- Witness for C3: two observed elements; the first callback reports the
first element intersecting, the second callback the second one. -/
theorem reveal_marks_in_one_callback_witness :
    initScrollReveal [1, 2] = some ⟨[1, 2], []⟩ ∧
    Delivered ⟨[1, 2], []⟩ [[⟨1, true⟩, ⟨2, false⟩], [⟨2, true⟩]] ∧
    ([[⟨1, true⟩, ⟨2, false⟩], [⟨2, true⟩]].filter (marks 2)).length ≤ 1 :=
  ⟨rfl, by simp [Delivered, callback, handleEntry],
   (reveal_marks_in_one_callback [1, 2] ⟨[1, 2], []⟩ rfl
      [[⟨1, true⟩, ⟨2, false⟩], [⟨2, true⟩]] (by simp [Delivered, callback, handleEntry]) 2).1⟩

end ScrollReveal

namespace ContactForm

theorem fallback_spec (env : Env) :
    (∀ e ∈ fallback env, isSend e = false ∧ isInit e = false) ∧
    (∃ e ∈ fallback env, isMailto e) ∧
    Effect.act (Action.setLabel "Sent ✔") ∉ fallback env := by
  unfold fallback
  split
  · refine ⟨?_, ⟨_, List.mem_cons_self _ _, ⟨_, rfl⟩⟩, by simp⟩
    intro e he
    simp at he
    rcases he with rfl | rfl | rfl | rfl <;> exact ⟨rfl, rfl⟩
  · refine ⟨?_, ⟨_, List.mem_cons_self _ _, ⟨_, rfl⟩⟩, by simp⟩
    intro e he
    simp at he
    rcases he with rfl | rfl | rfl <;> exact ⟨rfl, rfl⟩

theorem fallback_shape (env : Env) :
    ∃ url t, (∃ mid, fallback env = Effect.assignHref url :: (mid ++ [t])
        ∧ ∀ e ∈ mid, isTimer e = false) ∧ schedulesRestore t = true ∧
      (env.navThrows = true →
        fallback env = [Effect.assignHref url, Effect.error,
          Effect.act (Action.setLabel "Error"), Effect.setTimeout 2000 restoreOnly]) := by
  unfold fallback
  split
  · refine ⟨_, Effect.setTimeout 2000 restoreOnly,
      ⟨[Effect.error, Effect.act (Action.setLabel "Error")], rfl, ?_⟩, by decide, fun _ => rfl⟩
    intro e he
    simp at he
    rcases he with rfl | rfl <;> rfl
  · rename_i h
    refine ⟨_, Effect.setTimeout 1500 restoreAndReset,
      ⟨[Effect.act (Action.setLabel "Opened Mail Client")], rfl, ?_⟩, by decide,
      fun h2 => absurd h2 h⟩
    intro e he
    simp at he
    subst he
    rfl

theorem onSubmit_skipped (env : Env) (hb : env.hasButton = true) (h : relayGuard env = none) :
    onSubmit env = opening ++ fallback env := by
  unfold onSubmit relayTry
  rw [h]
  simp [hb, afterTry, opening]

theorem onSubmit_relay (env : Env) (hb : env.hasButton = true) (c : Client) (cfg : Config)
    (h : relayGuard env = some (c, cfg)) :
    onSubmit env = opening ++
      (initEffects c cfg ++ sendEffect env cfg :: (afterSend c.send).1
        ++ afterTry env (afterSend c.send).2) := by
  unfold onSubmit relayTry
  rw [h]
  simp [hb, opening]

theorem relayGuard_some (env : Env) (c : Client) (cfg : Config) :
    relayGuard env = some (c, cfg) ↔
      env.emailjs = some c ∧ env.config = some cfg ∧
        truthy cfg.serviceID = true ∧ truthy cfg.templateID = true := by
  unfold relayGuard
  cases he : env.emailjs with
  | none => simp
  | some c2 =>
    cases hc : env.config with
    | none => simp
    | some cfg2 =>
      by_cases hg : (truthy cfg2.serviceID && truthy cfg2.templateID) = true
      · simp only [hg, if_true, Option.some.injEq, Prod.mk.injEq]
        simp only [Bool.and_eq_true] at hg
        constructor
        · rintro ⟨rfl, rfl⟩
          exact ⟨rfl, rfl, hg.1, hg.2⟩
        · rintro ⟨rfl, rfl, _, _⟩
          exact ⟨rfl, rfl⟩
      · simp only [hg]
        simp only [Bool.and_eq_true] at hg
        constructor
        · intro h
          simp at h
        · rintro ⟨h1, h2, h3, h4⟩
          simp only [Option.some.injEq] at h1 h2
          subst h1 h2
          exact absurd ⟨h3, h4⟩ hg

theorem initEffects_spec (c : Client) (cfg : Config) :
    (∀ e ∈ initEffects c cfg, isSend e = false ∧ isNavigation e = false ∧ isTimer e = false ∧
      schedulesReset e = false ∧ e ≠ Effect.act (Action.setLabel "Sent ✔")) ∧
    (truthy cfg.userID = false → initEffects c cfg = []) := by
  unfold initEffects
  constructor
  · intro e he
    split at he
    · simp at he
      subst he
      exact ⟨rfl, rfl, rfl, rfl, by simp⟩
    · simp at he
  · intro h
    simp [h]

theorem trace_cases (env : Env) (hb : env.hasButton = true) :
    (relayGuard env = none ∧ onSubmit env = opening ++ fallback env) ∨
    (∃ c cfg, relayGuard env = some (c, cfg) ∧
      ((c.send = SendOutcome.resolves ∧ onSubmit env = opening ++ (initEffects c cfg ++
          [sendEffect env cfg, Effect.act (Action.setLabel "Sent ✔"),
           Effect.setTimeout 1500 restoreAndReset])) ∨
       (c.send = SendOutcome.fails ∧ onSubmit env = opening ++ (initEffects c cfg ++
          sendEffect env cfg :: Effect.warn :: fallback env)) ∨
       (c.send = SendOutcome.neverSettles ∧ onSubmit env = opening ++ (initEffects c cfg ++
          [sendEffect env cfg])))) := by
  cases hg : relayGuard env with
  | none => exact Or.inl ⟨rfl, onSubmit_skipped env hb hg⟩
  | some p =>
    obtain ⟨c, cfg⟩ := p
    refine Or.inr ⟨c, cfg, rfl, ?_⟩
    have h := onSubmit_relay env hb c cfg hg
    cases hs : c.send with
    | resolves =>
      refine Or.inl ⟨rfl, ?_⟩
      rw [h, hs]
      simp [afterSend, afterTry, opening]
    | fails =>
      refine Or.inr (Or.inl ⟨rfl, ?_⟩)
      rw [h, hs]
      simp [afterSend, afterTry, opening]
    | neverSettles =>
      refine Or.inr (Or.inr ⟨rfl, ?_⟩)
      rw [h, hs]
      simp [afterSend, afterTry, opening]

theorem opening_spec :
    ∀ e ∈ opening, isSend e = false ∧ isInit e = false ∧ isNavigation e = false ∧
      isTimer e = false ∧ schedulesReset e = false ∧
      e ≠ Effect.act (Action.setLabel "Sent ✔") := by
  intro e he
  simp [opening] at he
  rcases he with rfl | rfl | rfl <;> refine ⟨rfl, rfl, rfl, rfl, rfl, ?_⟩ <;> simp

/-- Claim C4.  For every submission of a form that has a button: (1) when the
relay client is present and fully configured and its `send` resolves, the
label becomes `Sent ✔`, a timer of 1500 ms that resets the form is scheduled
and `window.location.href` is not assigned; (2) when the relay branch is not
entered (client or configuration absent, or incomplete), `send` is never
called and `window.location.href` is assigned a URL that starts with
`mailto:`; (3) no submission both sets the success label and assigns
`window.location.href`. -/
theorem form_success_or_mailto_never_both (env : Env) (hb : env.hasButton = true) :
    (fullyConfigured env → sendSucceeds env →
      Effect.act (Action.setLabel "Sent ✔") ∈ onSubmit env ∧
      Effect.setTimeout 1500 restoreAndReset ∈ onSubmit env ∧
      Action.reset ∈ restoreAndReset ∧
      ∀ e ∈ onSubmit env, isNavigation e = false) ∧
    (relayConfigured env = false →
      (∀ e ∈ onSubmit env, isSend e = false) ∧ ∃ e ∈ onSubmit env, isMailto e) ∧
    ((env.emailjs = none ∨ env.config = none) → relayConfigured env = false) ∧
    ¬ (Effect.act (Action.setLabel "Sent ✔") ∈ onSubmit env ∧
        ∃ e ∈ onSubmit env, isNavigation e = true) := by
  refine ⟨?_, ?_, ?_, ?_⟩
  · rintro ⟨c, cfg, h1, h2, h3, h4, _⟩ ⟨c2, h5, h6⟩
    rw [h1] at h5
    simp only [Option.some.injEq] at h5
    subst h5
    have hg := (relayGuard_some env c cfg).mpr ⟨h1, h2, h3, h4⟩
    have h := onSubmit_relay env hb c cfg hg
    rw [h6] at h
    simp only [afterSend, afterTry, List.append_nil] at h
    rw [h]
    refine ⟨by simp, by simp, by decide, ?_⟩
    intro e he
    simp only [List.mem_append, List.mem_cons] at he
    rcases he with he | he | he | he | he | he
    · exact (opening_spec e he).2.2.1
    · exact ((initEffects_spec c cfg).1 e he).2.1
    · subst he; rfl
    · subst he; rfl
    · subst he; rfl
    · simp at he
  · intro h
    have hg : relayGuard env = none := by
      unfold relayConfigured at h
      cases hr : relayGuard env with
      | none => rfl
      | some p => rw [hr] at h; simp at h
    rw [onSubmit_skipped env hb hg]
    obtain ⟨f1, ⟨e, he, hm⟩, _⟩ := fallback_spec env
    refine ⟨?_, e, List.mem_append_right _ he, hm⟩
    intro e2 he2
    rcases List.mem_append.mp he2 with h2 | h2
    · exact (opening_spec e2 h2).1
    · exact (f1 e2 h2).1
  · intro h
    unfold relayConfigured relayGuard
    rcases h with h | h
    · simp [h]
    · rw [h]
      cases env.emailjs <;> rfl
  · rintro ⟨hs, e, he, hn⟩
    obtain ⟨_, _, fs⟩ := fallback_spec env
    rcases trace_cases env hb with ⟨_, h⟩ | ⟨c, cfg, _, ⟨_, h⟩ | ⟨_, h⟩ | ⟨_, h⟩⟩
    · rw [h] at hs
      rcases List.mem_append.mp hs with h2 | h2
      · exact (opening_spec _ h2).2.2.2.2.2 rfl
      · exact fs h2
    · rw [h] at he
      simp only [List.mem_append, List.mem_cons] at he
      rcases he with he | he | he | he | he | he
      · rw [(opening_spec e he).2.2.1] at hn; simp at hn
      · rw [((initEffects_spec c cfg).1 e he).2.1] at hn; simp at hn
      · subst he; simp [sendEffect, isNavigation] at hn
      · subst he; simp [isNavigation] at hn
      · subst he; simp [isNavigation] at hn
      · simp at he
    · rw [h] at hs
      simp only [List.mem_append, List.mem_cons] at hs
      rcases hs with h2 | h2 | h2 | h2 | h2
      · exact (opening_spec _ h2).2.2.2.2.2 rfl
      · exact ((initEffects_spec c cfg).1 _ h2).2.2.2.2 rfl
      · simp [sendEffect] at h2
      · simp at h2
      · exact fs h2
    · rw [h] at hs
      simp only [List.mem_append, List.mem_cons] at hs
      rcases hs with h2 | h2 | h2 | h2
      · exact (opening_spec _ h2).2.2.2.2.2 rfl
      · exact ((initEffects_spec c cfg).1 _ h2).2.2.2.2 rfl
      · simp [sendEffect] at h2
      · simp at h2

/-- Witness for C4: the sample submission with a fully configured relay whose `send` resolves. -/
theorem form_success_or_mailto_never_both_witness :
    sampleRelay.hasButton = true ∧
    Effect.act (Action.setLabel "Sent ✔") ∈ onSubmit sampleRelay ∧
    Effect.setTimeout 1500 restoreAndReset ∈ onSubmit sampleRelay ∧
    Action.reset ∈ restoreAndReset ∧
    ∀ e ∈ onSubmit sampleRelay, isNavigation e = false :=
  ⟨rfl, (form_success_or_mailto_never_both sampleRelay rfl).1
    ⟨_, _, rfl, rfl, by decide, by decide, by decide⟩ ⟨_, rfl, rfl⟩⟩

/-- Counterexample for C5: the user identifier is missing from the
configuration, the other two fields are set and the client is present.  The
handler calls `send` (without calling `init`), sets the success label and
never assigns `window.location.href`. -/
theorem form_sends_without_user_identifier :
    sampleNoUser.config = some ⟨some "svc", some "tpl", none⟩ ∧
    onSubmit sampleNoUser =
      [Effect.preventDefault, Effect.act (Action.setDisabled true),
       Effect.act (Action.setLabel "Sending…"),
       Effect.send "svc" "tpl" "Ann" "a@b.c" "abubakarsow111@gmail.com" "Hi" "Hello",
       Effect.act (Action.setLabel "Sent ✔"),
       Effect.setTimeout 1500 [Action.setLabel "Transmit", Action.setDisabled false,
         Action.reset]] := by
  constructor
  · rfl
  · simp [onSubmit, sampleNoUser, sampleRelay, relayTry, relayGuard, truthy, initEffects,
      sendEffect, payload, orElse, afterSend, afterTry, restoreAndReset]

/-- Claim C5, amended.  For every relay configuration in which the service
identifier or the template identifier is missing or empty, a submission does
not call `send` and assigns `window.location.href` a `mailto:` URL; when
these two are set and the client is present, a missing or empty user
identifier does not prevent `send` from being called: only `init` is not called. -/
theorem form_incomplete_service_or_template_takes_mailto (env : Env)
    (hb : env.hasButton = true) (cfg : Config) (hc : env.config = some cfg) :
    ((truthy cfg.serviceID = false ∨ truthy cfg.templateID = false) →
      (∀ e ∈ onSubmit env, isSend e = false) ∧ ∃ e ∈ onSubmit env, isMailto e) ∧
    (∀ c, env.emailjs = some c → truthy cfg.serviceID = true → truthy cfg.templateID = true →
      truthy cfg.userID = false →
      (∃ e ∈ onSubmit env, isSend e = true) ∧ ∀ e ∈ onSubmit env, isInit e = false) := by
  constructor
  · intro h
    have hg : relayGuard env = none := by
      cases hr : relayGuard env with
      | none => rfl
      | some p =>
        obtain ⟨c, cfg2⟩ := p
        obtain ⟨_, h2, h3, h4⟩ := (relayGuard_some env c cfg2).mp hr
        rw [hc] at h2
        simp only [Option.some.injEq] at h2
        subst h2
        rcases h with h | h
        · rw [h] at h3; simp at h3
        · rw [h] at h4; simp at h4
    rw [onSubmit_skipped env hb hg]
    obtain ⟨f1, ⟨e, he, hm⟩, _⟩ := fallback_spec env
    refine ⟨?_, e, List.mem_append_right _ he, hm⟩
    intro e2 he2
    rcases List.mem_append.mp he2 with h2 | h2
    · exact (opening_spec e2 h2).1
    · exact (f1 e2 h2).1
  · intro c h1 h2 h3 h4
    have hg := (relayGuard_some env c cfg).mpr ⟨h1, hc, h2, h3⟩
    rw [onSubmit_relay env hb c cfg hg, (initEffects_spec c cfg).2 h4]
    refine ⟨⟨sendEffect env cfg, by simp, rfl⟩, ?_⟩
    intro e he
    simp only [List.nil_append, List.mem_append, List.mem_cons] at he
    rcases he with he | he | he
    · exact (opening_spec e he).2.1
    · rcases he with he | he
      · subst he; rfl
      · cases hs : c.send <;> rw [hs] at he <;> simp [afterSend] at he
        rcases he with rfl | rfl <;> rfl
    · obtain ⟨f1, _, _⟩ := fallback_spec env
      cases hs : c.send <;> rw [hs] at he <;> simp [afterSend, afterTry] at he
      rcases he with rfl | he
      · rfl
      · exact (f1 e he).2

/-- Witness for C5: the sample submission with an empty template identifier. -/
theorem form_incomplete_service_or_template_takes_mailto_witness :
    sampleNoTemplate.config = some ⟨some "svc", some "", some "uid"⟩ ∧
    (∀ e ∈ onSubmit sampleNoTemplate, isSend e = false) ∧
    ∃ e ∈ onSubmit sampleNoTemplate, isMailto e :=
  ⟨rfl, (form_incomplete_service_or_template_takes_mailto sampleNoTemplate rfl
    ⟨some "svc", some "", some "uid"⟩ rfl).1 (Or.inr (by decide))⟩

/-- Claim C6.  For every submission of a form that has a button, whenever
the relay's `send` settles: the handler's first write to the page disables
the button, and its last effect schedules the only timer, whose body sets
the label back to `Transmit` and the disabled flag to false.  When the
mailto fallback is reached and assigning `window.location.href` throws, the
label is set to `Error` right before that timer is scheduled, the timer has
a delay of 2000 ms, and no timer of the submission resets the form. -/
theorem form_always_reenables (env : Env) (hb : env.hasButton = true)
    (hs : sendSettles env) :
    (∃ pre t, onSubmit env
        = Effect.preventDefault :: Effect.act (Action.setDisabled true) :: (pre ++ [t]) ∧
      isTimer t = true ∧ schedulesRestore t = true ∧ ∀ e ∈ pre, isTimer e = false) ∧
    (env.navThrows = true → (∃ e ∈ onSubmit env, isNavigation e = true) →
      (∃ pre, onSubmit env = pre ++ [Effect.act (Action.setLabel "Error"),
        Effect.setTimeout 2000 restoreOnly]) ∧
      Action.reset ∉ restoreOnly ∧
      ∀ e ∈ onSubmit env, schedulesReset e = false) := by
  obtain ⟨url, t, ⟨mid, hf, hmid⟩, ht, hthrow⟩ := fallback_shape env
  have htimer : isTimer t = true := by
    cases t <;> simp [schedulesRestore] at ht
    rfl
  have hfr : env.navThrows = true → ∀ e ∈ fallback env, schedulesReset e = false := by
    intro hn e he
    rw [hthrow hn] at he
    simp at he
    rcases he with rfl | rfl | rfl | rfl <;> rfl
  rcases trace_cases env hb with ⟨_, h⟩ | ⟨c, cfg, hg, ⟨hr, h⟩ | ⟨_, h⟩ | ⟨hn, _⟩⟩
  · constructor
    · refine ⟨Effect.act (Action.setLabel "Sending…") :: Effect.assignHref url :: mid, t, ?_,
        htimer, ht, ?_⟩
      · rw [h, hf]; simp [opening]
      · intro e he
        simp only [List.mem_cons] at he
        rcases he with rfl | rfl | he
        · rfl
        · rfl
        · exact hmid e he
    · intro hn _
      refine ⟨⟨opening ++ [Effect.assignHref url, Effect.error], ?_⟩, by decide, ?_⟩
      · rw [h, hthrow hn]; simp
      · intro e he
        rw [h] at he
        rcases List.mem_append.mp he with h2 | h2
        · exact (opening_spec e h2).2.2.2.2.1
        · exact hfr hn e h2
  · constructor
    · refine ⟨Effect.act (Action.setLabel "Sending…") :: (initEffects c cfg ++
        [sendEffect env cfg, Effect.act (Action.setLabel "Sent ✔")]),
        Effect.setTimeout 1500 restoreAndReset, ?_, rfl, by decide, ?_⟩
      · rw [h]; simp [opening]
      · intro e he
        simp only [List.mem_cons, List.mem_append] at he
        rcases he with rfl | he | rfl | rfl | he
        · rfl
        · exact ((initEffects_spec c cfg).1 e he).2.2.1
        · rfl
        · rfl
        · simp at he
    · rintro _ ⟨e, he, hnav⟩
      exfalso
      rw [h] at he
      simp only [List.mem_append, List.mem_cons] at he
      rcases he with he | he | he | he | he | he
      · rw [(opening_spec e he).2.2.1] at hnav; simp at hnav
      · rw [((initEffects_spec c cfg).1 e he).2.1] at hnav; simp at hnav
      · subst he; simp [sendEffect, isNavigation] at hnav
      · subst he; simp [isNavigation] at hnav
      · subst he; simp [isNavigation] at hnav
      · simp at he
  · constructor
    · refine ⟨Effect.act (Action.setLabel "Sending…") :: (initEffects c cfg ++
        sendEffect env cfg :: Effect.warn :: Effect.assignHref url :: mid), t, ?_,
        htimer, ht, ?_⟩
      · rw [h, hf]; simp [opening]
      · intro e he
        simp only [List.mem_cons, List.mem_append] at he
        rcases he with rfl | he | rfl | rfl | rfl | he
        · rfl
        · exact ((initEffects_spec c cfg).1 e he).2.2.1
        · rfl
        · rfl
        · rfl
        · exact hmid e he
    · intro hn _
      refine ⟨⟨opening ++ (initEffects c cfg ++ [sendEffect env cfg, Effect.warn,
        Effect.assignHref url, Effect.error]), ?_⟩, by decide, ?_⟩
      · rw [h, hthrow hn]; simp
      · intro e he
        rw [h] at he
        simp only [List.mem_append, List.mem_cons] at he
        rcases he with h2 | h2 | h2 | h2 | h2
        · exact (opening_spec e h2).2.2.2.2.1
        · exact ((initEffects_spec c cfg).1 e h2).2.2.2.1
        · subst h2; rfl
        · subst h2; rfl
        · exact hfr hn e h2
  · exact absurd hn (hs c ((relayGuard_some env c cfg).mp hg).1)

/-- Witness for C6: the sample submission with a failing relay and a throwing navigation. -/
theorem form_always_reenables_witness :
    sampleAllFail.hasButton = true ∧ sendSettles sampleAllFail ∧
    ∃ pre t, onSubmit sampleAllFail
        = Effect.preventDefault :: Effect.act (Action.setDisabled true) :: (pre ++ [t]) ∧
      isTimer t = true ∧ schedulesRestore t = true ∧ ∀ e ∈ pre, isTimer e = false :=
  ⟨rfl, by intro c hc; simp [sampleAllFail, sampleRelay] at hc; subst hc; simp,
   (form_always_reenables sampleAllFail rfl
     (by intro c hc; simp [sampleAllFail, sampleRelay] at hc; subst hc; simp)).1⟩

end ContactForm

namespace Bubbles

theorem targets_sub_ids (F : Forest) : ∀ t ∈ targetsOf F, t ∈ ids F := by
  induction F with
  | nil => intro t h; simp [targetsOf] at h
  | node x tag cls kids next ihk ihn =>
    intro t h
    simp only [targetsOf, List.mem_append] at h
    simp only [ids, List.mem_cons, List.mem_append]
    rcases h with h | h | h
    · split at h
      · simp at h; exact Or.inl h
      · simp at h
    · exact Or.inr (Or.inl (ihk t h))
    · exact Or.inr (Or.inr (ihn t h))

theorem pending_sub_targets (F : Forest) : ∀ t ∈ pending F, t ∈ targetsOf F := by
  induction F with
  | nil => intro t h; simp [pending] at h
  | node x tag cls kids next ihk ihn =>
    intro t h
    simp only [pending, List.mem_append] at h
    simp only [targetsOf, List.mem_append]
    rcases h with h | h | h
    · split at h
      · rename_i hc
        simp only [Bool.and_eq_true] at hc
        simp at h
        left
        simp [hc.1, h]
      · simp at h
    · exact Or.inr (Or.inl (ihk t h))
    · exact Or.inr (Or.inr (ihn t h))

theorem mkBubbles_spec (n : Nat) : ∀ s,
    targetsOf (mkBubbles n s) = [] ∧ pending (mkBubbles n s) = [] ∧ Ok (mkBubbles n s) ∧
    Done (mkBubbles n s) ∧ ids (mkBubbles n s) = List.range' s n ∧
    (topClasses (mkBubbles n s)).length = n ∧
    (∀ c ∈ topClasses (mkBubbles n s), c = ["bubble"]) ∧
    untouched (mkBubbles n s) = true := by
  induction n with
  | zero => intro s; simp [mkBubbles, targetsOf, pending, Ok, Done, ids, topClasses, untouched]
  | succ n ih =>
    intro s
    obtain ⟨h1, h2, h3, h4, h5, h6, h7, h8⟩ := ih (s + 1)
    have ht : isTarget "div" = false := by decide
    refine ⟨?_, ?_, ?_, ?_, ?_, ?_, ?_, ?_⟩
    · simp [mkBubbles, targetsOf, ht, h1]
    · simp [mkBubbles, pending, ht, h2]
    · simp [mkBubbles, Ok, ht, h3, pending]
    · simp [mkBubbles, Done, ht, h4]
    · simp [mkBubbles, ids, h5, List.range'_succ]
    · simp [mkBubbles, topClasses, h6]
    · intro c hc
      simp only [mkBubbles, topClasses, List.mem_cons] at hc
      rcases hc with hc | hc
      · exact hc
      · exact h7 c hc
    · simp [mkBubbles, untouched, ht, h8]

theorem update_none (t : Nat) (f : List String → Forest → List String × Forest) (G : Forest) :
    t ∉ ids G → updateElement t f G = none := by
  induction G with
  | nil => intro _; rfl
  | node x tag cls kids next ihk ihn =>
    intro h
    simp only [ids, List.mem_cons, List.mem_append, not_or] at h
    obtain ⟨h1, h2, h3⟩ := h
    have hx : ¬ x = t := fun e => h1 e.symm
    simp [updateElement, hx, ihk h2, ihn h3]

theorem qs_none_iff (G : Forest) :
    querySelector G = none →
      topNoBubbles G = true ∧ decorated G = false ∧ oneContainerFirst G = false := by
  cases G with
  | nil => intro _; simp [topNoBubbles, decorated, oneContainerFirst]
  | node x tag cls kids next =>
    intro h
    simp only [querySelector] at h
    split at h
    · simp at h
    · rename_i hb
      refine ⟨?_, by simp [decorated, hb], by simp [oneContainerFirst, hb]⟩
      simp only [topNoBubbles, hb, decide_False, Bool.not_false, Bool.true_and]
      have hn : querySelector next = none := by
        cases hk : querySelector kids with
        | none => rw [hk] at h; exact h
        | some p => rw [hk] at h; simp at h
      clear h
      revert hn
      generalize next = N
      intro hn
      induction N with
      | nil => rfl
      | node y tg cl ks nx _ ihn =>
        simp only [querySelector] at hn
        split at hn
        · simp at hn
        · rename_i hb2
          simp only [topNoBubbles, hb2, decide_False, Bool.not_false, Bool.true_and]
          apply ihn
          cases hk : querySelector ks with
          | none => rw [hk] at hn; exact hn
          | some p => rw [hk] at hn; simp at hn

theorem untouched_ok (F : Forest) :
    untouched F = true → Ok F ∧ pending F = targetsOf F := by
  induction F with
  | nil => intro _; simp [Ok, pending, targetsOf]
  | node x tag cls kids next ihk ihn =>
    intro h
    simp only [untouched, Bool.and_eq_true, Bool.or_eq_true, Bool.not_eq_true'] at h
    obtain ⟨⟨h1, h2⟩, h3⟩ := h
    obtain ⟨ok1, p1⟩ := ihk h2
    obtain ⟨ok2, p2⟩ := ihn h3
    have hq : isTarget tag = true → querySelector kids = none := by
      intro ht
      rcases h1 with h1 | h1
      · rw [ht] at h1; simp at h1
      · simpa using h1
    refine ⟨⟨ok1, ok2, fun ht => Or.inr ⟨hq ht, h3⟩, fun _ => h3⟩, ?_⟩
    simp only [pending, targetsOf, p1, p2]
    cases ht : isTarget tag
    · simp
    · simp [(qs_none_iff kids (hq ht)).2.1]

theorem mem_addClass (cls : List String) :
    "bubbles" ∈ addClass "has-bubbles" cls ↔ "bubbles" ∈ cls := by
  unfold addClass
  split
  · rfl
  · simp

theorem top_update (t a b : Nat) (v : String) (G : Forest) :
    ∀ G1, updateElement t (decorate a b v) G = some G1 → topNoBubbles G1 = topNoBubbles G := by
  induction G with
  | nil => intro G1 h; simp [updateElement] at h
  | node x tag cls kids next _ ihn =>
    intro G1 h
    simp only [updateElement] at h
    split at h
    · simp only [Option.some.injEq] at h
      subst h
      simp only [topNoBubbles, decorate, mem_addClass]
    · cases hk : updateElement t (decorate a b v) kids with
      | some k1 =>
        rw [hk] at h
        simp only [Option.some.injEq] at h
        subst h
        simp only [topNoBubbles]
      | none =>
        rw [hk] at h
        cases hn : updateElement t (decorate a b v) next with
        | some n1 =>
          rw [hn] at h
          simp only [Option.some.injEq] at h
          subst h
          simp only [topNoBubbles, ihn n1 hn]
        | none => rw [hn] at h; simp at h

theorem nodup_node (x : Nat) (tag : String) (cls : List String) (kids next : Forest)
    (h : (ids (Forest.node x tag cls kids next)).Nodup) :
    x ∉ ids kids ∧ x ∉ ids next ∧ (ids kids).Nodup ∧ (ids next).Nodup ∧
      ∀ y, y ∈ ids kids → y ∉ ids next := by
  simp only [ids, List.nodup_cons, List.mem_append, not_or, List.nodup_append] at h
  obtain ⟨⟨h1, h2⟩, h3, h4, h5⟩ := h
  exact ⟨h1, h2, h3, h4, fun y hy hn => h5 hy hn⟩

theorem decorated_update (t a b : Nat) (v : String) (G G1 : Forest)
    (hd : decorated G = true) (hn : (ids G).Nodup) (ht : t ∈ targetsOf G)
    (hu : updateElement t (decorate a b v) G = some G1) : decorated G1 = true := by
  cases G with
  | nil => simp [decorated] at hd
  | node c ctag ccls ck rest =>
    simp only [decorated, Bool.and_eq_true, Bool.not_eq_true', List.isEmpty_iff,
      decide_eq_true_eq] at hd
    obtain ⟨⟨⟨d1, d2⟩, d3⟩, d4⟩ := hd
    obtain ⟨n1, n2, _, _, n5⟩ := nodup_node c ctag ccls ck rest hn
    have htr : t ∈ ids rest := by
      apply targets_sub_ids
      simpa [targetsOf, d2, d3] using ht
    have hc : ¬ c = t := fun e => n2 (e ▸ htr)
    have hck : t ∉ ids ck := fun hm => n5 t hm htr
    simp only [updateElement, hc, if_false, update_none t _ ck hck] at hu
    cases hr : updateElement t (decorate a b v) rest with
    | none => rw [hr] at hu; simp at hu
    | some r1 =>
      rw [hr] at hu
      simp only [Option.some.injEq] at hu
      subst hu
      simp [decorated, d1, d2, d3, top_update t a b v rest r1 hr, d4]

theorem remove_count (p y : Nat) (G : Forest) :
    (ids (remove p G)).count y ≤ (ids G).count y := by
  induction G with
  | nil => simp [remove]
  | node x tag cls kids next ihk ihn =>
    simp only [remove]
    split
    · simp only [ids, List.count_cons, List.count_append]
      omega
    · simp only [ids, List.count_cons, List.count_append]
      omega

theorem decorate_count (a b : Nat) (v : String) (cls : List String) (kids : Forest) (y : Nat) :
    (ids (decorate a b v cls kids).2).count y
      ≤ (ids kids).count y + (List.range' a (b + 1)).count y := by
  have hr : List.range' a (b + 1) = a :: List.range' (a + 1) b := by
    simp [List.range'_succ]
  simp only [decorate, ids, (mkBubbles_spec b (a + 1)).2.2.2.2.1, hr, List.count_cons,
    List.count_append]
  cases hq : querySelector kids with
  | none => simp only; omega
  | some p =>
    simp only
    have := remove_count p y kids
    omega

theorem update_count (t a b : Nat) (v : String) (y : Nat) (G : Forest) :
    ∀ G1, updateElement t (decorate a b v) G = some G1 →
      (ids G1).count y ≤ (ids G).count y + (List.range' a (b + 1)).count y := by
  induction G with
  | nil => intro G1 h; simp [updateElement] at h
  | node x tag cls kids next ihk ihn =>
    intro G1 h
    simp only [updateElement] at h
    split at h
    · simp only [Option.some.injEq] at h
      subst h
      have h2 := decorate_count a b v cls kids y
      simp only [decorate, ids, List.count_cons, List.count_append] at h2 ⊢
      omega
    · cases hk : updateElement t (decorate a b v) kids with
      | some k1 =>
        rw [hk] at h
        simp only [Option.some.injEq] at h
        subst h
        have := ihk k1 hk
        simp only [ids, List.count_cons, List.count_append]
        omega
      | none =>
        rw [hk] at h
        cases hn : updateElement t (decorate a b v) next with
        | some n1 =>
          rw [hn] at h
          simp only [Option.some.injEq] at h
          subst h
          have := ihn n1 hn
          simp only [ids, List.count_cons, List.count_append]
          omega
        | none => rw [hn] at h; simp at h

theorem wellFormed_update (t b : Nat) (v : String) (d : Dom) (G1 : Forest)
    (hw : WellFormed d) (hu : updateElement t (decorate d.nextId b v) d.root = some G1) :
    WellFormed { root := G1, nextId := d.nextId + b + 1 } := by
  obtain ⟨hn, hb⟩ := hw
  have hc := fun y => update_count t d.nextId b v y d.root G1 hu
  have hrange : ∀ y, (List.range' d.nextId (b + 1)).count y ≤ 1 :=
    fun y => List.nodup_iff_count_le_one.mp (List.nodup_range' _ _) y
  constructor
  · apply List.nodup_iff_count_le_one.mpr
    intro y
    have h1 := hc y
    by_cases hy : y < d.nextId
    · have : (List.range' d.nextId (b + 1)).count y = 0 := by
        apply List.count_eq_zero_of_not_mem
        simp [List.mem_range']
        omega
      have h2 := List.nodup_iff_count_le_one.mp hn y
      show (ids G1).count y ≤ 1
      omega
    · have : (ids d.root).count y = 0 := by
        apply List.count_eq_zero_of_not_mem
        intro hm
        exact hy (hb y hm)
      have h2 := hrange y
      show (ids G1).count y ≤ 1
      omega
  · intro y hy
    show y < d.nextId + b + 1
    have h1 := hc y
    have hpos : 0 < (ids G1).count y := List.count_pos_iff.mpr hy
    by_cases h0 : 0 < (ids d.root).count y
    · have := hb y (List.count_pos_iff.mp h0)
      omega
    · have h3 : 0 < (List.range' d.nextId (b + 1)).count y := by omega
      have := List.count_pos_iff.mp h3
      simp [List.mem_range'] at this
      omega

theorem targetsOf_node (x : Nat) (tag : String) (cls : List String) (kids next : Forest) :
    targetsOf (Forest.node x tag cls kids next)
      = (if isTarget tag then [x] else []) ++ (targetsOf kids ++ targetsOf next) := rfl

theorem pending_node (x : Nat) (tag : String) (cls : List String) (kids next : Forest) :
    pending (Forest.node x tag cls kids next)
      = (if isTarget tag && !decorated kids then [x] else [])
          ++ (pending kids ++ pending next) := rfl

theorem container_facts (a b : Nat) (v : String) (rest : Forest) :
    isTarget "div" = false ∧ "bubbles" ∈ ["bubbles", v] ∧
    targetsOf (Forest.node a "div" ["bubbles", v] (mkBubbles b (a + 1)) rest) = targetsOf rest ∧
    pending (Forest.node a "div" ["bubbles", v] (mkBubbles b (a + 1)) rest) = pending rest ∧
    decorated (Forest.node a "div" ["bubbles", v] (mkBubbles b (a + 1)) rest)
      = topNoBubbles rest ∧
    (Ok rest → Ok (Forest.node a "div" ["bubbles", v] (mkBubbles b (a + 1)) rest)) ∧
    (Done rest → Done (Forest.node a "div" ["bubbles", v] (mkBubbles b (a + 1)) rest)) := by
  obtain ⟨h1, h2, h3, h4, _, _, _, _⟩ := mkBubbles_spec b (a + 1)
  have ht : isTarget "div" = false := by decide
  refine ⟨ht, by simp, ?_, ?_, ?_, ?_, ?_⟩
  · simp [targetsOf, ht, h1]
  · simp [pending, ht, h2]
  · simp [decorated, ht, h1]
  · intro hr
    simp only [Ok, ht, h2]
    exact ⟨h3, hr, by simp, by simp⟩
  · intro hr
    simp only [Done, ht]
    exact ⟨by simp, h4, hr⟩

theorem step_pending (a b : Nat) (v : String) (F : Forest) :
    ∀ t R, (ids F).Nodup → Ok F → pending F = t :: R →
      ∃ F1, updateElement t (decorate a b v) F = some F1 ∧ Ok F1 ∧ pending F1 = R ∧
        targetsOf F1 = targetsOf F := by
  induction F with
  | nil => intro t R _ _ h; simp [pending] at h
  | node x tag cls kids next ihk ihn =>
    intro t R hn hok hp
    obtain ⟨n1, n2, n3, n4, n5⟩ := nodup_node x tag cls kids next hn
    simp only [Ok] at hok
    obtain ⟨ok1, ok2, ok3, ok4⟩ := hok
    simp only [pending] at hp
    by_cases hA : (isTarget tag && !decorated kids) = true
    · simp only [hA, if_true, List.singleton_append, List.cons.injEq] at hp
      obtain ⟨hx, hR⟩ := hp
      subst hx
      simp only [Bool.and_eq_true, Bool.not_eq_true'] at hA
      obtain ⟨htag, hdec⟩ := hA
      rcases ok3 htag with hd | ⟨hq, hu⟩
      · rw [hd] at hdec; simp at hdec
      · obtain ⟨_, _, c3, c4, c5, c6, _⟩ := container_facts a b v kids
        refine ⟨Forest.node x tag (addClass "has-bubbles" cls)
          (Forest.node a "div" ["bubbles", v] (mkBubbles b (a + 1)) kids) next, ?_, ?_, ?_, ?_⟩
        · simp [updateElement, decorate, hq]
        · simp only [Ok]
          refine ⟨c6 ok1, ok2, fun _ => Or.inl ?_, fun _ => hu⟩
          rw [c5]
          exact (qs_none_iff kids hq).1
        · rw [pending_node, c4, c5, (qs_none_iff kids hq).1]
          simpa using hR
        · rw [targetsOf_node, c3, targetsOf_node]
    · have hP0 : (if (isTarget tag && !decorated kids) = true then [x] else []) = [] := by
        simp [hA]
      rw [hP0, List.nil_append] at hp
      have hdec : isTarget tag = true → decorated kids = true := by
        intro ht
        cases hd : decorated kids
        · simp [ht, hd] at hA
        · rfl
      cases hpk : pending kids with
      | cons t1 Rk =>
        rw [hpk] at hp
        simp only [List.cons_append, List.cons.injEq] at hp
        obtain ⟨ht1, hR⟩ := hp
        subst ht1
        have htk : t1 ∈ pending kids := by rw [hpk]; exact List.mem_cons_self _ _
        have htt : t1 ∈ targetsOf kids := pending_sub_targets kids t1 htk
        have hti : t1 ∈ ids kids := targets_sub_ids kids t1 htt
        have hx : ¬ x = t1 := fun e => n1 (e ▸ hti)
        obtain ⟨k1, hu, hok1, hp1, htg1⟩ := ihk t1 Rk n3 ok1 hpk
        refine ⟨Forest.node x tag cls k1 next, ?_, ?_, ?_, ?_⟩
        · simp [updateElement, hx, hu]
        · simp only [Ok]
          refine ⟨hok1, ok2, fun ht => Or.inl ?_, fun _ => ok4 (by rw [hpk]; simp)⟩
          exact decorated_update t1 a b v kids k1 (hdec ht) n3 htt hu
        · simp only [pending, hp1]
          have : (isTarget tag && !decorated k1) = false := by
            cases ht : isTarget tag
            · simp
            · simp [decorated_update t1 a b v kids k1 (hdec ht) n3 htt hu]
          simp [this, hR]
        · simp only [targetsOf, htg1]
      | nil =>
        rw [hpk, List.nil_append] at hp
        have htn : t ∈ ids next := by
          apply targets_sub_ids
          apply pending_sub_targets
          rw [hp]
          exact List.mem_cons_self _ _
        have hx : ¬ x = t := fun e => n2 (e ▸ htn)
        have hk : t ∉ ids kids := fun hm => n5 t hm htn
        obtain ⟨nx1, hu, hok1, hp1, htg1⟩ := ihn t R n4 ok2 hp
        refine ⟨Forest.node x tag cls kids nx1, ?_, ?_, ?_, ?_⟩
        · simp [updateElement, hx, update_none t _ kids hk, hu]
        · simp only [Ok]
          exact ⟨ok1, hok1, fun ht => Or.inl (hdec ht), fun h => absurd hpk h⟩
        · simp only [pending, hpk, hp1, hP0]
          simp
        · simp only [targetsOf, htg1]

theorem step_done (a b : Nat) (v : String) (F : Forest) :
    ∀ t, (ids F).Nodup → Done F → t ∈ targetsOf F →
      ∃ F1, updateElement t (decorate a b v) F = some F1 ∧ Done F1 ∧
        targetsOf F1 = targetsOf F := by
  induction F with
  | nil => intro t _ _ h; simp [targetsOf] at h
  | node x tag cls kids next ihk ihn =>
    intro t hn hd ht
    obtain ⟨n1, n2, n3, n4, n5⟩ := nodup_node x tag cls kids next hn
    simp only [Done] at hd
    obtain ⟨d1, d2, d3⟩ := hd
    by_cases hx : x = t
    · subst hx
      have htag : isTarget tag = true := by
        cases hc : isTarget tag
        · simp only [targetsOf, hc, List.mem_append] at ht
          rcases ht with ht | ht | ht
          · simp at ht
          · exact absurd (targets_sub_ids kids x ht) n1
          · exact absurd (targets_sub_ids next x ht) n2
        · rfl
      have hdk := d1 htag
      cases kids with
      | nil => simp [decorated] at hdk
      | node c ctag ccls ck rest =>
        simp only [decorated, Bool.and_eq_true, Bool.not_eq_true', List.isEmpty_iff,
          decide_eq_true_eq] at hdk
        obtain ⟨⟨⟨e1, e2⟩, e3⟩, e4⟩ := hdk
        simp only [Done] at d2
        obtain ⟨_, _, c3, _, c5, _, c7⟩ := container_facts a b v rest
        refine ⟨Forest.node x tag (addClass "has-bubbles" cls)
          (Forest.node a "div" ["bubbles", v] (mkBubbles b (a + 1)) rest) next, ?_, ?_, ?_⟩
        · simp [updateElement, decorate, querySelector, e1, remove]
        · simp only [Done]
          exact ⟨fun _ => by rw [c5]; exact e4, c7 d2.2.2, d3⟩
        · rw [targetsOf_node, c3, targetsOf_node x tag cls, targetsOf_node c ctag ccls, e3]
          simp [e2]
    · simp only [targetsOf, List.mem_append] at ht
      have ht2 : t ∈ targetsOf kids ∨ t ∈ targetsOf next := by
        rcases ht with ht | ht | ht
        · split at ht
          · simp at ht; exact absurd ht.symm hx
          · simp at ht
        · exact Or.inl ht
        · exact Or.inr ht
      rcases ht2 with htk | htn
      · obtain ⟨k1, hu, hd1, htg1⟩ := ihk t n3 d2 htk
        refine ⟨Forest.node x tag cls k1 next, ?_, ?_, ?_⟩
        · simp [updateElement, hx, hu]
        · simp only [Done]
          exact ⟨fun h => decorated_update t a b v kids k1 (d1 h) n3 htk hu, hd1, d3⟩
        · simp only [targetsOf, htg1]
      · have hk : t ∉ ids kids := fun hm => n5 t hm (targets_sub_ids next t htn)
        obtain ⟨nx1, hu, hd1, htg1⟩ := ihn t n4 d3 htn
        refine ⟨Forest.node x tag cls kids nx1, ?_, ?_, ?_⟩
        · simp [updateElement, hx, update_none t _ kids hk, hu]
        · simp only [Done]
          exact ⟨d1, d2, hd1⟩
        · simp only [targetsOf, htg1]

theorem create_pending (layout : Nat → ℚ) (i t : Nat) (R : List Nat) (d : Dom)
    (hw : WellFormed d) (hok : Ok d.root) (hp : pending d.root = t :: R) :
    WellFormed (createBubblesFor layout t i d) ∧ Ok (createBubblesFor layout t i d).root ∧
    pending (createBubblesFor layout t i d).root = R ∧
    targetsOf (createBubblesFor layout t i d).root = targetsOf d.root := by
  obtain ⟨F1, hu, h1, h2, h3⟩ := step_pending d.nextId (bubbleCount (layout t)).toNat
    (variants.getD (i % variants.length) "") d.root t R hw.1 hok hp
  have hw1 := wellFormed_update t _ _ d F1 hw hu
  simp only [createBubblesFor, hu]
  exact ⟨hw1, h1, h2, h3⟩

theorem pass_pending (layout : Nat → ℚ) (R : List Nat) :
    ∀ (i : Nat) (d : Dom), WellFormed d → Ok d.root → pending d.root = R →
      WellFormed (passFrom layout i R d) ∧ Ok (passFrom layout i R d).root ∧
      pending (passFrom layout i R d).root = [] ∧
      targetsOf (passFrom layout i R d).root = targetsOf d.root := by
  induction R with
  | nil => intro i d hw hok hp; exact ⟨hw, hok, hp, rfl⟩
  | cons t R ih =>
    intro i d hw hok hp
    obtain ⟨c1, c2, c3, c4⟩ := create_pending layout i t R d hw hok hp
    obtain ⟨p1, p2, p3, p4⟩ := ih (i + 1) _ c1 c2 c3
    exact ⟨p1, p2, p3, p4.trans c4⟩

theorem ok_done (F : Forest) : Ok F → pending F = [] → Done F := by
  induction F with
  | nil => intro _ _; trivial
  | node x tag cls kids next ihk ihn =>
    intro hok hp
    simp only [Ok] at hok
    obtain ⟨ok1, ok2, _, _⟩ := hok
    rw [pending_node] at hp
    simp only [List.append_eq_nil] at hp
    obtain ⟨h0, h1, h2⟩ := hp
    simp only [Done]
    refine ⟨fun ht => ?_, ihk ok1 h1, ihn ok2 h2⟩
    cases hd : decorated kids
    · simp [ht, hd] at h0
    · rfl

theorem create_done (layout : Nat → ℚ) (i t : Nat) (d : Dom)
    (hw : WellFormed d) (hd : Done d.root) (ht : t ∈ targetsOf d.root) :
    WellFormed (createBubblesFor layout t i d) ∧ Done (createBubblesFor layout t i d).root ∧
    targetsOf (createBubblesFor layout t i d).root = targetsOf d.root := by
  obtain ⟨F1, hu, h1, h2⟩ := step_done d.nextId (bubbleCount (layout t)).toNat
    (variants.getD (i % variants.length) "") d.root t hw.1 hd ht
  have hw1 := wellFormed_update t _ _ d F1 hw hu
  simp only [createBubblesFor, hu]
  exact ⟨hw1, h1, h2⟩

theorem pass_done (layout : Nat → ℚ) (ts : List Nat) :
    ∀ (i : Nat) (d : Dom), WellFormed d → Done d.root → (∀ t ∈ ts, t ∈ targetsOf d.root) →
      WellFormed (passFrom layout i ts d) ∧ Done (passFrom layout i ts d).root ∧
      targetsOf (passFrom layout i ts d).root = targetsOf d.root := by
  induction ts with
  | nil => intro i d hw hd _; exact ⟨hw, hd, rfl⟩
  | cons t ts ih =>
    intro i d hw hd hts
    obtain ⟨c1, c2, c3⟩ := create_done layout i t d hw hd (hts t (List.mem_cons_self _ _))
    obtain ⟨p1, p2, p3⟩ := ih (i + 1) _ c1 c2
      (fun u hu => by rw [c3]; exact hts u (List.mem_cons_of_mem _ hu))
    exact ⟨p1, p2, p3.trans c3⟩

theorem decorated_one (G : Forest) : decorated G = true → oneContainerFirst G = true := by
  cases G with
  | nil => intro h; simp [decorated] at h
  | node c ctag ccls ck rest =>
    intro h
    simp only [decorated, Bool.and_eq_true, decide_eq_true_eq] at h
    simp [oneContainerFirst, h.1.1.1, h.2]

theorem done_all (F : Forest) : Done F → allTargetsDecorated F = true := by
  induction F with
  | nil => intro _; rfl
  | node x tag cls kids next ihk ihn =>
    intro h
    simp only [Done] at h
    obtain ⟨h1, h2, h3⟩ := h
    simp only [allTargetsDecorated, ihk h2, ihn h3, Bool.and_true]
    cases ht : isTarget tag
    · rfl
    · simp [decorated_one kids (h1 ht)]

theorem find_none (t : Nat) (G : Forest) : t ∉ ids G → find t G = none := by
  induction G with
  | nil => intro _; rfl
  | node x tag cls kids next ihk ihn =>
    intro h
    simp only [ids, List.mem_cons, List.mem_append, not_or] at h
    obtain ⟨h1, h2, h3⟩ := h
    have hx : ¬ x = t := fun e => h1 e.symm
    simp [find, hx, ihk h2, ihn h3]

theorem done_find (F : Forest) :
    ∀ t, (ids F).Nodup → Done F → t ∈ targetsOf F →
      ∃ cls kids, find t F = some (cls, kids) ∧ oneContainerFirst kids = true := by
  induction F with
  | nil => intro t _ _ h; simp [targetsOf] at h
  | node x tag cls kids next ihk ihn =>
    intro t hn hd ht
    obtain ⟨n1, n2, n3, n4, n5⟩ := nodup_node x tag cls kids next hn
    simp only [Done] at hd
    obtain ⟨d1, d2, d3⟩ := hd
    by_cases hx : x = t
    · subst hx
      have htag : isTarget tag = true := by
        cases hc : isTarget tag
        · simp only [targetsOf, hc, List.mem_append] at ht
          rcases ht with ht | ht | ht
          · simp at ht
          · exact absurd (targets_sub_ids kids x ht) n1
          · exact absurd (targets_sub_ids next x ht) n2
        · rfl
      exact ⟨cls, kids, by simp [find], decorated_one kids (d1 htag)⟩
    · simp only [targetsOf, List.mem_append] at ht
      have ht2 : t ∈ targetsOf kids ∨ t ∈ targetsOf next := by
        rcases ht with ht | ht | ht
        · split at ht
          · simp at ht; exact absurd ht.symm hx
          · simp at ht
        · exact Or.inl ht
        · exact Or.inr ht
      rcases ht2 with htk | htn
      · obtain ⟨c, k, hf, ho⟩ := ihk t n3 d2 htk
        exact ⟨c, k, by simp [find, hx, hf], ho⟩
      · have hk : t ∉ ids kids := fun hm => n5 t hm (targets_sub_ids next t htn)
        obtain ⟨c, k, hf, ho⟩ := ihn t n4 d3 htn
        exact ⟨c, k, by simp [find, hx, find_none t kids hk, hf], ho⟩

theorem resizes_done (resizes : List (Nat → ℚ)) :
    ∀ s : State, WellFormed s.dom → Done s.dom.root → s.targets = targetsOf s.dom.root →
      WellFormed (resizes.foldl onResize s).dom ∧ Done (resizes.foldl onResize s).dom.root ∧
      targetsOf (resizes.foldl onResize s).dom.root = targetsOf s.dom.root := by
  induction resizes with
  | nil => intro s hw hd _; exact ⟨hw, hd, rfl⟩
  | cons l ls ih =>
    intro s hw hd ht
    obtain ⟨p1, p2, p3⟩ := pass_done l s.targets 0 s.dom hw hd (fun t h => by rw [← ht]; exact h)
    have hs : (onResize s l).dom = passFrom l 0 s.targets s.dom := rfl
    have ht2 : (onResize s l).targets = targetsOf (onResize s l).dom.root := by
      rw [hs, p3]; exact ht
    obtain ⟨q1, q2, q3⟩ := ih (onResize s l) (by rw [hs]; exact p1) (by rw [hs]; exact p2) ht2
    refine ⟨q1, q2, ?_⟩
    rw [List.foldl_cons, q3, hs, p3]

/-- Claim C2.  Starting from a well-formed page in which no `header`,
`section` or `footer` holds an element of class `bubbles` (targets may be
nested in one another), after the initial pass of `initBubbles` and after any
number of resize passes over the captured targets in document order, the
document has the same targets as the page, and every target has exactly one
`.bubbles` element among its children, which is its first child. -/
theorem bubbles_one_container_first_child (page : Dom) (layout0 : Nat → ℚ)
    (resizes : List (Nat → ℚ)) (hw : WellFormed page) (hclean : untouched page.root = true) :
    ∃ s0, initBubbles false layout0 page = some s0 ∧
      s0.targets = targetsOf page.root ∧
      targetsOf (resizes.foldl onResize s0).dom.root = targetsOf page.root ∧
      allTargetsDecorated (resizes.foldl onResize s0).dom.root = true ∧
      ∀ t ∈ targetsOf page.root, ∃ cls kids,
        find t (resizes.foldl onResize s0).dom.root = some (cls, kids) ∧
        oneContainerFirst kids = true := by
  obtain ⟨ok0, hp0⟩ := untouched_ok page.root hclean
  obtain ⟨p1, p2, p3, p4⟩ := pass_pending layout0 (targetsOf page.root) 0 page hw ok0 hp0
  have hd := ok_done _ p2 p3
  refine ⟨{ targets := targetsOf page.root,
            dom := passFrom layout0 0 (targetsOf page.root) page }, rfl, rfl, ?_⟩
  obtain ⟨q1, q2, q3⟩ := resizes_done resizes
    { targets := targetsOf page.root, dom := passFrom layout0 0 (targetsOf page.root) page }
    p1 hd p4.symm
  refine ⟨q3.trans p4, done_all _ q2, ?_⟩
  intro t ht
  exact done_find _ t q1.1 q2 (by rw [q3.trans p4]; exact ht)

/-- Witness for C2: the sample page (a section nested in a section), heights
of 600 for the initial pass, then one resize pass with heights of 100. -/
theorem bubbles_one_container_first_child_witness :
    WellFormed samplePage ∧ untouched samplePage.root = true ∧
    ∃ s0, initBubbles false (fun _ => 600) samplePage = some s0 ∧
      s0.targets = targetsOf samplePage.root ∧
      targetsOf ([fun _ => (100 : ℚ)].foldl onResize s0).dom.root = targetsOf samplePage.root ∧
      allTargetsDecorated ([fun _ => (100 : ℚ)].foldl onResize s0).dom.root = true ∧
      ∀ t ∈ targetsOf samplePage.root, ∃ cls kids,
        find t ([fun _ => (100 : ℚ)].foldl onResize s0).dom.root = some (cls, kids) ∧
        oneContainerFirst kids = true :=
  ⟨⟨by decide, by decide⟩, by decide,
   bubbles_one_container_first_child samplePage (fun _ => 600) [fun _ => 100]
     ⟨by decide, by decide⟩ (by decide)⟩

theorem bubbleCount_bounds (h : ℚ) : 3 ≤ bubbleCount h ∧ bubbleCount h ≤ 12 := by
  unfold bubbleCount
  exact ⟨le_min (by norm_num) (le_max_left _ _), min_le_left _ _⟩

theorem find_update (el : Nat) (f : List String → Forest → List String × Forest) (G : Forest) :
    el ∈ ids G → ∃ cls kids G1, find el G = some (cls, kids) ∧
      updateElement el f G = some G1 ∧ find el G1 = some ((f cls kids).1, (f cls kids).2) := by
  induction G with
  | nil => intro h; simp [ids] at h
  | node x tag cls kids next ihk ihn =>
    intro h
    by_cases hx : x = el
    · exact ⟨cls, kids, Forest.node x tag (f cls kids).1 (f cls kids).2 next,
        by simp [find, hx], by simp [updateElement, hx], by simp [find, hx]⟩
    · by_cases hk : el ∈ ids kids
      · obtain ⟨c, k, k1, h1, h2, h3⟩ := ihk hk
        exact ⟨c, k, Forest.node x tag cls k1 next, by simp [find, hx, h1],
          by simp [updateElement, hx, h2], by simp [find, hx, h3]⟩
      · have hn : el ∈ ids next := by
          simp only [ids, List.mem_cons, List.mem_append] at h
          rcases h with h | h | h
          · exact absurd h.symm hx
          · exact absurd h hk
          · exact h
        obtain ⟨c, k, n1, h1, h2, h3⟩ := ihn hn
        exact ⟨c, k, Forest.node x tag cls kids n1,
          by simp [find, hx, find_none el kids hk, h1],
          by simp [updateElement, hx, update_none el f kids hk, h2],
          by simp [find, hx, find_none el kids hk, h3]⟩

/-- Claim C1.  For every element `el` of the document and every rendered
height `h = layout el` (a height of 0 being replaced by 600),
`createBubblesFor` computes `count = min(12, max(3, round(h / 160)))`, which
lies between 3 and 12, and afterwards the first child of `el` is a new `div`
of class `bubbles` whose children are exactly `count` elements of class
`bubble`. -/
theorem bubble_count_bounded_and_container_filled (layout : Nat → ℚ) (el i : Nat) (d : Dom)
    (hel : el ∈ ids d.root) :
    bubbleCount (layout el)
      = min 12 (max 3 (jsRound ((if layout el = 0 then 600 else layout el) / 160))) ∧
    3 ≤ bubbleCount (layout el) ∧ bubbleCount (layout el) ≤ 12 ∧
    ∃ cls v ck rest,
      find el (createBubblesFor layout el i d).root
        = some (cls, Forest.node d.nextId "div" ["bubbles", v] ck rest) ∧
      ((topClasses ck).length : ℤ) = bubbleCount (layout el) ∧
      ∀ k ∈ topClasses ck, k = ["bubble"] := by
  obtain ⟨b1, b2⟩ := bubbleCount_bounds (layout el)
  refine ⟨rfl, b1, b2, ?_⟩
  obtain ⟨cls, kids, G1, _, h2, h3⟩ := find_update el
    (decorate d.nextId (bubbleCount (layout el)).toNat
      (variants.getD (i % variants.length) "")) d.root hel
  obtain ⟨_, _, _, _, _, m6, m7, _⟩ :=
    mkBubbles_spec (bubbleCount (layout el)).toNat (d.nextId + 1)
  refine ⟨addClass "has-bubbles" cls, variants.getD (i % variants.length) "",
    mkBubbles (bubbleCount (layout el)).toNat (d.nextId + 1),
    (match querySelector kids with
      | some p => remove p kids
      | none => kids), ?_, ?_, m7⟩
  · simp only [createBubblesFor, h2]
    rw [h3]
    rfl
  · rw [m6]
    exact Int.toNat_of_nonneg (by omega)

/-- Witness for C1: the outer section of the sample page, rendered 720 px high. -/
theorem bubble_count_bounded_and_container_filled_witness :
    2 ∈ ids samplePage.root ∧ bubbleCount 720 = 5 ∧
    ∃ cls v ck rest,
      find 2 (createBubblesFor (fun _ => 720) 2 1 samplePage).root
        = some (cls, Forest.node samplePage.nextId "div" ["bubbles", v] ck rest) ∧
      ((topClasses ck).length : ℤ) = bubbleCount ((fun _ => (720 : ℚ)) 2) ∧
      ∀ k ∈ topClasses ck, k = ["bubble"] :=
  ⟨by decide, by norm_num [bubbleCount, jsRound],
   (bubble_count_bounded_and_container_filled (fun _ => 720) 2 1 samplePage
      (by decide)).2.2.2⟩

end Bubbles
